import Mathlib

/-! nginx-ect: endpoint extraction, probing and baseline comparison.

A shallow embedding of `internal/utils/contains.go`, `internal/nginx/status.go`
and `internal/nginx/nginx.go`, followed by theorems about it.

Conventions of the embedding.

* A Go `string` is a Lean `String` (a text of Unicode characters); a Go
  `[]T` is a `List T`; a Go `int` is an `Int` (only compared, converted from
  decimal text within the 64-bit range, or copied).
* A method with receiver `n *NginxEct` returning `error` is a function from the
  receiver before the call to the receiver after the call paired with the
  returned error (`none` is `nil`, `some msg` is an error whose text is `msg`).
* Logging is not modelled.
* What lies outside the repository (the file system, the JSON decoder, the
  HTTP client, SHA-256, `strconv.Quote`) is a field of `Env`.
-/

set_option autoImplicit false

/-! ## internal/utils/contains.go -/

namespace utils

/-- Go `utils.Contains`: the first item equal to `search` makes the answer `true`. -/
def Contains : List String → String → Bool
  | [], _ => false
  | item :: slice, search => if item = search then true else Contains slice search

/-- Go `utils.CleanSlice`: drops empty values and repeated values, keeping the
first occurrence of each. -/
def CleanSlice (slice : List String) : List String :=
  slice.foldl
    (fun cleanSlice item =>
      if item = "" then cleanSlice
      else if !Contains cleanSlice item then cleanSlice ++ [item]
      else cleanSlice)
    []

end utils

/-! ## Library functions the scan relies on

`strings.Contains`, `strings.Split`, `strconv.Atoi`, `bufio.Scanner` with the
default line splitter, and the two regular expressions of `ParseConfig`. They
are written by structural recursion on the characters of the text. -/

namespace strings

/-- Go `strings.Contains` on character lists: `substr` starts at some position of `s`. -/
def containsChars (substr : List Char) : List Char → Bool
  | [] => substr.isEmpty
  | c :: cs => substr.isPrefixOf (c :: cs) || containsChars substr cs

/-- Go `strings.Contains(s, substr)`. -/
def Contains (s substr : String) : Bool :=
  containsChars substr.data s.data

/-- Go `strings.Split` on character lists for a separator of one character:
`k` separators give `k + 1` pieces, empty pieces included. -/
def splitChars (sep : Char) : List Char → List (List Char)
  | [] => [[]]
  | c :: cs =>
    if c = sep then [] :: splitChars sep cs
    else
      match splitChars sep cs with
      | [] => [[c]]
      | piece :: pieces => (c :: piece) :: pieces

/-- Go `strings.Split(s, sep)` for a separator of one character. -/
def Split (s : String) (sep : Char) : List String :=
  (splitChars sep s.data).map String.mk

end strings

namespace strconv

/-- The two error kinds of package strconv. -/
inductive NumErr where
  | ErrSyntax
  | ErrRange
  deriving DecidableEq, Repr

/-- Text of the error kind (`ErrSyntax.Error()`, `ErrRange.Error()`). -/
def NumErr.text : NumErr → String
  | .ErrSyntax => "invalid syntax"
  | .ErrRange => "value out of range"

/-- The digit loop of `ParseUint` in base 10 with 64 bits: a character that is
not a decimal digit is a syntax error, a value above `2^64 - 1` a range error,
whichever is met first. -/
def parseUint : List Char → Nat → Except NumErr Nat
  | [], n => .ok n
  | c :: cs, n =>
    if '0' ≤ c ∧ c ≤ '9' then
      if n * 10 + (c.toNat - '0'.toNat) > 2 ^ 64 - 1 then .error .ErrRange
      else parseUint cs (n * 10 + (c.toNat - '0'.toNat))
    else .error .ErrSyntax

/-- Go `strconv.Atoi` on a 64-bit platform: an optional sign, then at least one
decimal digit, the value within `[-2^63, 2^63 - 1]`. -/
def Atoi (s : String) : Except NumErr Int :=
  match s.data with
  | [] => .error .ErrSyntax
  | c :: cs =>
    let digits := if c = '-' ∨ c = '+' then cs else c :: cs
    if digits.isEmpty then .error .ErrSyntax
    else
      match parseUint digits 0 with
      | .error e => .error e
      | .ok un =>
        if c = '-' then
          if un > 2 ^ 63 then .error .ErrRange else .ok (-(un : Int))
        else
          if un ≥ 2 ^ 63 then .error .ErrRange else .ok (un : Int)

end strconv

namespace bufio

/-- Go `bufio.MaxScanTokenSize`. -/
def MaxScanTokenSize : Nat := 64 * 1024

/-- Text of `bufio.ErrTooLong`. -/
def ErrTooLong : String := "bufio.Scanner: token too long"

/-- Go `dropCR`: one trailing carriage return is dropped. -/
def dropCR (data : List Char) : List Char :=
  match data.reverse with
  | '\r' :: rest => rest.reverse
  | _ => data

/-- The lines `ScanLines` cuts: the text is cut after each newline, the newline
removed, and a last piece without newline is a line when it is non-empty. -/
def rawLines : List Char → List (List Char)
  | [] => []
  | c :: cs =>
    if c = '\n' then [] :: rawLines cs
    else
      match rawLines cs with
      | [] => [[c]]
      | line :: lines => (c :: line) :: lines

/-- The tokens `Scan` delivers and the final `Err()`: a line that does not fit
the buffer of `MaxScanTokenSize` bytes together with its newline stops the scan
with `ErrTooLong`; the lines before it have been delivered. -/
def scanTokens : List (List Char) → List String × Option String
  | [] => ([], none)
  | line :: lines =>
    if (String.mk line).utf8ByteSize ≥ MaxScanTokenSize then ([], some ErrTooLong)
    else ((String.mk (dropCR line)) :: (scanTokens lines).1, (scanTokens lines).2)

/-- A `bufio.Scanner` over `strings.NewReader(s)`, run to the end. -/
def Scan (s : String) : List String × Option String :=
  scanTokens (rawLines s.data)

end bufio

namespace regexp

/-- The class `\s` of Go regular expressions: tab, newline, form feed, carriage
return, space. -/
def isSpace (c : Char) : Bool :=
  c = '\t' || c = '\n' || c = '\x0c' || c = '\r' || c = ' '

/-- The match of `\s+([^;]+);` anchored at the start of `rest`; the value is
group 1. The first semicolon ends the group. The blanks in front are all taken
by `\s+` when a character other than a semicolon follows them; when the
semicolon follows them directly, `\s+` gives back its last blank to the group,
which needs two blanks at least. -/
def matchArgs (rest : List Char) : Option (List Char) :=
  let blanks := rest.takeWhile isSpace
  let afterBlanks := rest.dropWhile isSpace
  let body := afterBlanks.takeWhile (fun c => c != ';')
  let tail := afterBlanks.dropWhile (fun c => c != ';')
  if blanks.isEmpty then none
  else if tail.isEmpty then none
  else if !body.isEmpty then some body
  else
    match blanks.reverse with
    | last :: _ :: _ => some [last]
    | _ => none

/-- The match of `word\s+([^;]+);` anchored at the start of `rest`. -/
def matchAt (word rest : List Char) : Option (List Char) :=
  if word.isPrefixOf rest then matchArgs (rest.drop word.length) else none

/-- Group 1 of the leftmost match of `word\s+([^;]+);` in `line`. -/
def findChars (word : List Char) : List Char → Option (List Char)
  | [] => matchAt word []
  | c :: cs =>
    match matchAt word (c :: cs) with
    | some group => some group
    | none => findChars word cs

/-- Go `regexp.MustCompile(word + "\\s+([^;]+);").FindStringSubmatch(line)`,
reduced to `matches[1]`; `none` is the empty result. -/
def FindStringSubmatch (word line : String) : Option String :=
  (findChars word.data line.data).map String.mk

end regexp

/-! ## internal/nginx/status.go: the data model -/

namespace nginx

/-- Go `ServerBlock`: the names and the port tokens of one scanned block. -/
structure ServerBlock where
  ServerName : List String
  Port : List String
  deriving DecidableEq, Repr

/-- Go `StatusMessage`, a named string type. -/
abbrev StatusMessage := String

def StatusMessageOK : StatusMessage := "OK"
def StatusMessageNoSuchHost : StatusMessage := "NO_HOST"
def StatusMessageConnectionRefused : StatusMessage := "CONN_REFUSED"
def StatusMessageConnectionReset : StatusMessage := "CONN_RESET"
def StatusMessageTimeout : StatusMessage := "TIMEOUT"
def StatusMessageUnknown : StatusMessage := "UNKNOWN"
def StatusMessageFailedToVerifyCertificate : StatusMessage := "FAILED_TO_VERIFY_CERTIFICATE"

/-- Go `ServerStatus`: one probe result. -/
structure ServerStatus where
  ServerName : String
  Port : Int
  StatusCode : Int
  StatusMessage : StatusMessage
  deriving DecidableEq, Repr

/-- Go `ServerStatusDiff`: one reported status-code change. -/
structure ServerStatusDiff where
  ServerName : String
  Port : Int
  OrigStatusCode : Int
  NewStatusCode : Int
  StatusMessage : StatusMessage
  deriving DecidableEq, Repr

/-- Go `State`: the persisted baseline (the creation time is a text here). -/
structure State where
  CreatedAt : String
  ConfigHash : String
  ServerStatuses : List ServerStatus
  deriving DecidableEq, Repr

/-- Go `NginxEct`: the receiver of every operation (`Timeout` in nanoseconds). -/
structure NginxEct where
  ConfigFilePath : String
  ConfigStr : String
  ConfigHash : String
  StateFilePath : String
  LoadedConfigHash : String
  Timeout : Int
  ServerBlocks : List ServerBlock
  ServerStatuses : List ServerStatus
  LoadedServerStatuses : List ServerStatus
  Diffs : List ServerStatusDiff
  Concurrency : Int
  VerifyHash : Bool
  IgnoreServers : List String
  deriving DecidableEq, Repr

/-- The zero value `NginxEct{}`. -/
def NginxEct.zero : NginxEct :=
  { ConfigFilePath := ""
    ConfigStr := ""
    ConfigHash := ""
    StateFilePath := ""
    LoadedConfigHash := ""
    Timeout := 0
    ServerBlocks := []
    ServerStatuses := []
    LoadedServerStatuses := []
    Diffs := []
    Concurrency := 0
    VerifyHash := false
    IgnoreServers := [] }

/-- Go `protoForPort`. -/
def protoForPort (port : Int) : String :=
  if port = 80 then "http"
  else if port = 443 then "https"
  else ""

/-! ## What lies outside the repository -/

/-- The environment of one run. -/
structure Env where
  /-- Go `utils.ReadFile`: the content at a path, or the text of the error. -/
  ReadFile : String → Except String String
  /-- Go `json.Unmarshal` into a `State`, or the text of the error. -/
  Unmarshal : String → Except String State
  /-- Hexadecimal SHA-256 digest of a text. -/
  Sum256Hex : String → String
  /-- Go `strconv.Quote`. -/
  Quote : String → String
  /-- Go `http.NewRequest` followed by `Client.Do` with the given timeout: the
  status code of the response to a GET of the URL, or the text of the error. -/
  HttpGet : String → Int → Except String Int

/-! ## internal/nginx/nginx.go: loading and hashing -/

/-- Go `(*NginxEct).LoadConfigFile`. -/
def LoadConfigFile (env : Env) (n : NginxEct) : NginxEct × Option String :=
  match env.ReadFile n.ConfigFilePath with
  | .error err => (n, some err)
  | .ok fd => ({ n with ConfigStr := fd }, none)

/-- Go `hashConfig`: writing to the hash never fails. -/
def hashConfig (env : Env) (cfg : String) : String × Option String :=
  (env.Sum256Hex cfg, none)

/-- Go `(*NginxEct).HashConfig`. -/
def HashConfig (env : Env) (n : NginxEct) : NginxEct × Option String :=
  match hashConfig env n.ConfigStr with
  | (_, some err) => (n, some err)
  | (h, none) => ({ n with ConfigHash := h }, none)

/-- Go `(*NginxEct).LoadStateFile`. -/
def LoadStateFile (env : Env) (n : NginxEct) : NginxEct × Option String :=
  match env.ReadFile n.StateFilePath with
  | .error err => (n, some err)
  | .ok fd =>
    match env.Unmarshal fd with
    | .error err => (n, some err)
    | .ok state =>
      ({ n with LoadedServerStatuses := state.ServerStatuses
                LoadedConfigHash := state.ConfigHash }, none)

/-! ## internal/nginx/nginx.go: ParseConfig -/

/-- Loop of nginx.go 133-138 for one token of a `server_name` directive. -/
def addServer (ignoreServers : List String) (currentBlock : ServerBlock) (server : String) :
    ServerBlock :=
  let ignored := utils.Contains ignoreServers server
  if server ≠ "" ∧ server ≠ "on" ∧ server ≠ "_" ∧ server ≠ "localhost" ∧ ignored = false then
    { currentBlock with ServerName := currentBlock.ServerName ++ [server] }
  else currentBlock

/-- Loop of nginx.go 144-148 for one token of a `listen` directive. -/
def addPort (currentBlock : ServerBlock) (port : String) : ServerBlock :=
  match strconv.Atoi port with
  | .ok _ => { currentBlock with Port := currentBlock.Port ++ [port] }
  | .error _ => currentBlock

/-- The scan state: `serverBlocks` and `currentBlock`. -/
structure ScanState where
  serverBlocks : List ServerBlock
  currentBlock : ServerBlock
  deriving DecidableEq, Repr

/-- Line 128-130: a line with the block opener resets the accumulator. -/
def stepOpen (line : String) (currentBlock : ServerBlock) : ServerBlock :=
  if strings.Contains line "server \x7b" then { ServerName := [], Port := [] } else currentBlock

/-- Line 131-139: the `server_name` directive. -/
def stepNames (ignoreServers : List String) (line : String) (currentBlock : ServerBlock) :
    ServerBlock :=
  match regexp.FindStringSubmatch "server_name" line with
  | some args => (strings.Split args ' ').foldl (addServer ignoreServers) currentBlock
  | none => currentBlock

/-- Line 142-149: the `listen` directive. -/
def stepPorts (line : String) (currentBlock : ServerBlock) : ServerBlock :=
  match regexp.FindStringSubmatch "listen" line with
  | some args => (strings.Split args ' ').foldl addPort currentBlock
  | none => currentBlock

/-- Body of the scan loop of `ParseConfig` (nginx.go 125-154) for one line. -/
def scanLine (ignoreServers : List String) (st : ScanState) (line : String) : ScanState :=
  let currentBlock := stepPorts line (stepNames ignoreServers line (stepOpen line st.currentBlock))
  if strings.Contains line "\x7d" ∧ currentBlock.ServerName.length > 0 ∧
      currentBlock.Port.length > 0 then
    { serverBlocks := st.serverBlocks ++ [currentBlock], currentBlock := currentBlock }
  else
    { serverBlocks := st.serverBlocks, currentBlock := currentBlock }

/-- The scan loop of `ParseConfig` over the delivered lines: the blocks
finalized, in the order of their finalization. -/
def scanBlocks (ignoreServers : List String) (lines : List String) : List ServerBlock :=
  (lines.foldl (scanLine ignoreServers)
    { serverBlocks := [], currentBlock := { ServerName := [], Port := [] } }).serverBlocks

/-- Go `reflect.DeepEqual` on two `ServerBlock` values whose slices are not
`nil` (every finalized block has a name and a port). -/
def DeepEqual (a b : ServerBlock) : Bool :=
  decide (a = b)

/-- Inner loop of nginx.go 164-169: `unique` after comparing `block` with the
blocks kept so far. -/
def isUnique (block : ServerBlock) : List ServerBlock → Bool
  | [] => true
  | uniqueBlock :: rest => if DeepEqual block uniqueBlock then false else isUnique block rest

/-- Body of the loop of nginx.go 162-173. -/
def addUnique (uniqueServerBlocks : List ServerBlock) (block : ServerBlock) : List ServerBlock :=
  if isUnique block uniqueServerBlocks then uniqueServerBlocks ++ [block]
  else uniqueServerBlocks

/-- Go `(*NginxEct).ParseConfig`. -/
def ParseConfig (n : NginxEct) : NginxEct × Option String :=
  match bufio.Scan n.ConfigStr with
  | (_, some err) => (n, some err)
  | (lines, none) =>
    ({ n with ServerBlocks := (scanBlocks n.IgnoreServers lines).foldl addUnique [] }, none)

/-! ## internal/nginx/nginx.go: FilterSupportedProtocols -/

def supportedPorts : List String := ["80", "443"]

/-- Inner loop of nginx.go 210-217: whether the block is appended (the loop
stops at the first supported port). -/
def hasSupportedPort : List String → Bool
  | [] => false
  | port :: ports => if utils.Contains supportedPorts port then true else hasSupportedPort ports

/-- Body of the loop of nginx.go 208-218. -/
def addSupported (cleanBlocks : List ServerBlock) (serverBlock : ServerBlock) :
    List ServerBlock :=
  if hasSupportedPort serverBlock.Port then cleanBlocks ++ [serverBlock] else cleanBlocks

/-- Go `(*NginxEct).FilterSupportedProtocols`. -/
def FilterSupportedProtocols (n : NginxEct) : NginxEct × Option String :=
  ({ n with ServerBlocks := n.ServerBlocks.foldl addSupported [] }, none)

/-- Go `(*NginxEct).Init`. -/
def Init (env : Env) (n : NginxEct) : NginxEct × Option String :=
  match LoadConfigFile env n with
  | (n1, some err) => (n1, some err)
  | (n1, none) =>
    match ParseConfig n1 with
    | (n2, some err) => (n2, some err)
    | (n2, none) => FilterSupportedProtocols n2

/-! ## internal/nginx: probing -/

/-- Go `GetServerStatusWithTimeout`. -/
def GetServerStatusWithTimeout (env : Env) (servername : String) (port : Int) (timeout : Int) :
    ServerStatus × Option String :=
  let u := protoForPort port ++ "://" ++ servername ++ ":" ++ toString port
  let stat : ServerStatus :=
    { ServerName := servername, Port := port, StatusCode := 0, StatusMessage := "" }
  match env.HttpGet u timeout with
  | .error err => (stat, some err)
  | .ok code => ({ stat with StatusCode := code, StatusMessage := StatusMessageOK }, none)

/-- The classification of nginx.go 255-265 of the text of a probe error. -/
def classify (errText : String) : StatusMessage :=
  if strings.Contains errText "timeout" then StatusMessageTimeout
  else if strings.Contains errText "connection refused" then StatusMessageConnectionRefused
  else if strings.Contains errText "no such host" then StatusMessageNoSuchHost
  else if strings.Contains errText "failed to verify certificate: x509" then
    StatusMessageFailedToVerifyCertificate
  else StatusMessageUnknown

/-- Body of the inner loop of `statusWorker` (nginx.go 231-270): the result sent
for one server name and one port token. -/
def statusWorkerPair (env : Env) (timeout : Int) (serverName port : String) : ServerStatus :=
  match strconv.Atoi port with
  | .error e =>
    { ServerName := serverName
      Port := 0
      StatusCode := 0
      StatusMessage := "failed to convert port to int: " ++
        ("strconv.Atoi: parsing " ++ env.Quote port ++ ": " ++ e.text) }
  | .ok intPort =>
    match GetServerStatusWithTimeout env serverName intPort timeout with
    | (_, some err) =>
      { ServerName := serverName
        Port := intPort
        StatusCode := 0
        StatusMessage := classify err }
    | (stat, none) => stat

/-- Go `statusWorker` for one job: the results sent for the block `sb`, in the
order in which they are sent. -/
def statusWorker (env : Env) (timeout : Int) (sb : ServerBlock) : List ServerStatus :=
  sb.ServerName.flatMap fun serverName =>
    sb.Port.map fun port => statusWorkerPair env timeout serverName port

/-- Go `(*NginxEct).totalJobs`. -/
def totalJobs (n : NginxEct) : Nat :=
  n.ServerBlocks.foldl (fun total sb => total + sb.ServerName.length * sb.Port.length) 0

/-- Go `(*NginxEct).IndexNginx` under the schedule of a single worker: the
blocks are served in order and `totalJobs` results are received. With several
workers the results of different blocks may arrive interleaved. `none` stands
for a call that does not return: no worker is started (`Concurrency < 1`) and
there is a block to hand over. -/
def IndexNginx (env : Env) (n : NginxEct) : Option (NginxEct × Option String) :=
  if n.Concurrency ≥ 1 ∨ n.ServerBlocks = [] then
    some ({ n with ServerStatuses := n.ServerStatuses ++
      ((n.ServerBlocks.flatMap (statusWorker env n.Timeout)).take (totalJobs n)) }, none)
  else none

/-! ## internal/nginx/nginx.go: DiffState -/

/-- The record built at nginx.go 389-395 from a current result `ss` and a
baseline result `lss`. -/
def mkDiff (ss lss : ServerStatus) : ServerStatusDiff :=
  { ServerName := ss.ServerName
    Port := ss.Port
    OrigStatusCode := lss.StatusCode
    NewStatusCode := ss.StatusCode
    StatusMessage := ss.StatusMessage }

/-- Body of the inner loop of `DiffState` (nginx.go 380-398) for one baseline
entry `lss`, the current entry being `ss`. -/
def diffInner (ss : ServerStatus) (diffs : List ServerStatusDiff) (lss : ServerStatus) :
    List ServerStatusDiff :=
  if ss.ServerName = lss.ServerName ∧ ss.Port = lss.Port then
    if ss.StatusCode ≠ lss.StatusCode then diffs ++ [mkDiff ss lss] else diffs
  else diffs

/-- Body of the outer loop of `DiffState` (nginx.go 378-400) for one current
entry `ss`: the whole baseline is scanned. -/
def diffOuter (loaded : List ServerStatus) (diffs : List ServerStatusDiff) (ss : ServerStatus) :
    List ServerStatusDiff :=
  loaded.foldl (diffInner ss) diffs

/-- Go `(*NginxEct).DiffState`: appends to `n.Diffs`, always returns `nil`. -/
def DiffState (n : NginxEct) : NginxEct × Option String :=
  ({ n with Diffs := n.ServerStatuses.foldl (diffOuter n.LoadedServerStatuses) n.Diffs }, none)

/-- The final check of `Diff` (nginx.go 448-462): the error it returns. -/
def diffCheck (n : NginxEct) : Option String :=
  if n.Diffs.length > 0 then some "found diffs" else none

/-- The comparison as the specification words it: every current result `c` in
order, for each the baseline entries `b` in order, one record for each `b` with
the same name and port and a different status code. -/
def diffSpec (current baseline : List ServerStatus) : List ServerStatusDiff :=
  current.flatMap fun c =>
    (baseline.filter fun b =>
      b.ServerName = c.ServerName ∧ b.Port = c.Port ∧ b.StatusCode ≠ c.StatusCode).map fun b =>
        { ServerName := c.ServerName
          Port := c.Port
          OrigStatusCode := b.StatusCode
          NewStatusCode := c.StatusCode
          StatusMessage := c.StatusMessage }

/-- Go `(*NginxEct).Diff`; `none` stands for a call that does not return. -/
def Diff (env : Env) (n : NginxEct) : Option (NginxEct × Option String) :=
  match Init env n with
  | (n1, some err) => some (n1, some err)
  | (n1, none) =>
    match LoadStateFile env n1 with
    | (n2, some err) => some (n2, some err)
    | (n2, none) =>
      match HashConfig env n2 with
      | (n3, some err) => some (n3, some err)
      | (n3, none) =>
        if n3.VerifyHash = true ∧ n3.ConfigHash ≠ n3.LoadedConfigHash then
          some (n3, some "config hash mismatch")
        else
          match IndexNginx env n3 with
          | none => none
          | some (n4, some err) => some (n4, some err)
          | some (n4, none) =>
            match DiffState n4 with
            | (n5, some err) => some (n5, some err)
            | (n5, none) => some (n5, diffCheck n5)

/-! ## Sample inputs -/

/-- A server block with a nested block between its directives (newline
terminated lines). -/
def sampleBlock : String :=
  "server \x7b\n  server_name example.com;\n  listen 80;\n  location / \x7b\n  \x7d\n  listen 443 ssl;\n\x7d\n"

/-- A flat server block whose last line is not terminated by a newline. -/
def sampleUnterminated : String :=
  "server \x7b\nlisten 80; server_name a.example.com; \x7d"

/-- A flat server block of newline-terminated lines whose opener is written
without a blank. -/
def sampleUnspaced : String :=
  "server\x7b\n  listen 80;\n  server_name a.example.com;\n\x7d\n"

/-- The result a probe outcome per (name, port) pair gives for one pair. -/
def resultOf (outcome : String → Int → Int × StatusMessage) (pair : String × Int) :
    ServerStatus :=
  { ServerName := pair.1
    Port := pair.2
    StatusCode := (outcome pair.1 pair.2).1
    StatusMessage := (outcome pair.1 pair.2).2 }

/-- A probe outcome: port 443 answers 200, every other port times out. -/
def sampleOutcome (_name : String) (port : Int) : Int × StatusMessage :=
  if port = 443 then (200, "OK") else (0, "TIMEOUT")

/-- A receiver holding a configuration text and an ignore list, all else zero. -/
def withConfig (cfg : String) (ignoreServers : List String) : NginxEct :=
  { NginxEct.zero with ConfigStr := cfg, IgnoreServers := ignoreServers }

/-- A configuration whose `listen` directives carry flags and address:port
forms next to plain ports. -/
def sampleListen : String :=
  "server \x7b\n  listen 443 ssl http2;\n  listen [::]:80;\n  server_name a.example.com localhost;\n  listen 127.0.0.1:8080;\n\x7d\nserver \x7b\n  listen 80 default_server;\n  server_name _ b.example.com ignored.example.com;\n\x7d\n"

/-- An environment whose every GET fails with the given text. -/
def failingEnv (errText : String) : Env :=
  { ReadFile := fun _ => .error "no file"
    Unmarshal := fun _ => .error "no state"
    Sum256Hex := fun _ => ""
    Quote := fun s => s
    HttpGet := fun _ _ => .error errText }

/-! ## The expansion of the groups, as the specification words it -/

/-- The port number `statusWorker` puts in the result for a port token: the
value `Atoi` gives, or 0 when the token does not convert. -/
def portNumber (port : String) : Int :=
  match strconv.Atoi port with
  | .ok intPort => intPort
  | .error _ => 0

/-- The cartesian product of the names and the port numbers of every group,
group after group. -/
def expandPairs (blocks : List ServerBlock) : List (String × Int) :=
  blocks.flatMap fun g => g.ServerName.flatMap fun name => g.Port.map fun port =>
    (name, portNumber port)

/-- The (ServerName, Port) pair of a result. -/
def pairOf (r : ServerStatus) : String × Int :=
  (r.ServerName, r.Port)

/-- The (ServerName, Port) pair of a regression record. -/
def pairOfDiff (d : ServerStatusDiff) : String × Int :=
  (d.ServerName, d.Port)

/-- The environment in which the decoded baseline carries the fingerprint
`loadedHash`, all else as in `env`. -/
def withLoadedHash (env : Env) (loadedHash : String) : Env :=
  { env with
    Unmarshal := fun fd =>
      match env.Unmarshal fd with
      | .ok state => .ok { state with ConfigHash := loadedHash }
      | .error err => .error err }

/-- What a caller of `Diff` observes besides the fingerprints: the returned
error, the results and the regressions. -/
def outcomeOf (r : NginxEct × Option String) :
    Option String × List ServerStatus × List ServerStatusDiff :=
  (r.2, r.1.ServerStatuses, r.1.Diffs)

/-- An environment with the configuration `cfg` at `nginx.conf`, a baseline at
`state.json` that decodes to the fingerprint `loadedHash` and the results
`loaded`, the digest "5d41" for every text, and every GET answered with `code`. -/
def sampleEnv (cfg loadedHash : String) (loaded : List ServerStatus) (code : Int) : Env :=
  { ReadFile := fun path =>
      if path = "nginx.conf" then .ok cfg
      else if path = "state.json" then .ok "baseline"
      else .error "open: no such file or directory"
    Unmarshal := fun _ =>
      .ok { CreatedAt := "2026-01-01T00:00:00Z", ConfigHash := loadedHash,
            ServerStatuses := loaded }
    Sum256Hex := fun _ => "5d41"
    Quote := fun s => s
    HttpGet := fun _ _ => .ok code }

/-- The receiver `main` builds for `-d nginx.conf -s state.json`. -/
def sampleReceiver (verifyHash : Bool) : NginxEct :=
  { NginxEct.zero with
    ConfigFilePath := "nginx.conf"
    StateFilePath := "state.json"
    Concurrency := 10
    VerifyHash := verifyHash
    Timeout := 5000000000 }

/-- The extraction of `Init` once the text is loaded (nginx.go 189-196):
`ParseConfig`, then `FilterSupportedProtocols` on the receiver it leaves. -/
def parseAndFilter (n : NginxEct) : NginxEct :=
  (FilterSupportedProtocols (ParseConfig n).1).1

/-- An environment whose every GET fails with the URL as text. -/
def echoEnv : Env :=
  { ReadFile := fun _ => .error "no file"
    Unmarshal := fun _ => .error "no state"
    Sum256Hex := fun _ => ""
    Quote := fun s => s
    HttpGet := fun u _ => .error u }

/-- The part of `Diff` that follows `HashConfig` (nginx.go 427-462): the
fingerprint gate, the probe run, the comparison and the final check. -/
def diffFrom (env : Env) (n : NginxEct) : Option (NginxEct × Option String) :=
  if n.VerifyHash = true ∧ n.ConfigHash ≠ n.LoadedConfigHash then
    some (n, some "config hash mismatch")
  else
    match IndexNginx env n with
    | none => none
    | some (n4, some err) => some (n4, some err)
    | some (n4, none) =>
      match DiffState n4 with
      | (n5, some err) => some (n5, some err)
      | (n5, none) => some (n5, diffCheck n5)

/-- The receiver at the fingerprint gate of `Diff` when the configuration text
`cfg` and the baseline `state` have been loaded. -/
def atGate (env : Env) (n : NginxEct) (cfg : String) (state : State) : NginxEct :=
  { n with
    ConfigStr := cfg
    ServerBlocks := (parseAndFilter { n with ConfigStr := cfg }).ServerBlocks
    LoadedServerStatuses := state.ServerStatuses
    LoadedConfigHash := state.ConfigHash
    ConfigHash := env.Sum256Hex cfg }

/-- A block that listens on 80 and on 8080. -/
def sampleMixedPorts : String :=
  "server \x7b\n  listen 80;\n  listen 8080;\n  server_name a.example.com;\n\x7d\n"

/-- A block whose `server_name` directive repeats a name. -/
def sampleRepeatedName : String :=
  "server \x7b\n  listen 80;\n  server_name a.example.com a.example.com;\n\x7d\n"

end nginx

/-! ## Theorems: utils -/

namespace utils

theorem Contains_iff (slice : List String) (search : String) :
    utils.Contains slice search = true ↔ search ∈ slice := by
  induction slice with
  | nil => simp [Contains]
  | cons item rest ih =>
    by_cases h : item = search
    · simp [Contains, h]
    · have h' : ¬ search = item := fun e => h e.symm
      simp [Contains, h, h', ih]

theorem Contains_eq_false_iff (slice : List String) (search : String) :
    Contains slice search = false ↔ search ∉ slice := by
  rw [← Contains_iff]
  cases Contains slice search <;> simp

end utils

namespace nginx

/-! ## Theorems: DiffState -/

theorem diffInner_foldl (ss : ServerStatus) (loaded : List ServerStatus)
    (diffs : List ServerStatusDiff) :
    loaded.foldl (diffInner ss) diffs = diffs ++ diffSpec [ss] loaded := by
  induction loaded generalizing diffs with
  | nil => simp [diffSpec]
  | cons b bs ih =>
    rw [List.foldl_cons, ih]
    have hbs := ih []
    simp only [diffSpec, List.flatMap_cons, List.flatMap_nil, List.append_nil,
      List.nil_append] at hbs ⊢
    by_cases h1 : ss.ServerName = b.ServerName ∧ ss.Port = b.Port
    · by_cases h2 : ss.StatusCode = b.StatusCode
      · simp [diffInner, h1, h2, List.filter_cons]
      · have h2' : ¬ b.StatusCode = ss.StatusCode := fun h => h2 h.symm
        simp [diffInner, h1, h2, h2', List.filter_cons, mkDiff]
    · have h1' : ¬ (b.ServerName = ss.ServerName ∧ b.Port = ss.Port ∧
          ¬ b.StatusCode = ss.StatusCode) := fun h => h1 ⟨h.1.symm, h.2.1.symm⟩
      simp [diffInner, h1, h1', List.filter_cons]

theorem diffOuter_foldl (current loaded : List ServerStatus) (diffs : List ServerStatusDiff) :
    current.foldl (diffOuter loaded) diffs = diffs ++ diffSpec current loaded := by
  induction current generalizing diffs with
  | nil => simp [diffSpec]
  | cons c cs ih =>
    rw [List.foldl_cons, ih, diffOuter, diffInner_foldl]
    simp [diffSpec, List.flatMap_cons, List.append_assoc]

theorem DiffState_append (n : NginxEct) :
    DiffState n =
      ({ n with Diffs := n.Diffs ++ diffSpec n.ServerStatuses n.LoadedServerStatuses },
        none) := by
  simp [DiffState, diffOuter_foldl]

theorem mem_diffSpec (current baseline : List ServerStatus) (d : ServerStatusDiff) :
    d ∈ diffSpec current baseline ↔
      ∃ c ∈ current, ∃ b ∈ baseline, b.ServerName = c.ServerName ∧ b.Port = c.Port ∧
        b.StatusCode ≠ c.StatusCode ∧ d = mkDiff c b := by
  simp only [diffSpec, List.mem_flatMap, List.mem_map, List.mem_filter, decide_eq_true_eq,
    mkDiff]
  constructor
  · rintro ⟨c, hc, b, ⟨hb, h1, h2, h3⟩, rfl⟩
    exact ⟨c, hc, b, hb, h1, h2, h3, rfl⟩
  · rintro ⟨c, hc, b, hb, h1, h2, h3, rfl⟩
    exact ⟨c, hc, b, ⟨hb, h1, h2, h3⟩, rfl⟩

theorem diffSpec_eq_nil (current baseline : List ServerStatus)
    (h : ∀ c ∈ current, ∀ b ∈ baseline,
      c.ServerName = b.ServerName → c.Port = b.Port → c.StatusCode = b.StatusCode) :
    diffSpec current baseline = [] := by
  apply List.eq_nil_iff_forall_not_mem.mpr
  intro d hd
  obtain ⟨c, hc, b, hb, h1, h2, h3, _⟩ := (mem_diffSpec _ _ _).mp hd
  exact h3 (h c hc b hb h1.symm h2.symm).symm

/-- Results built from one outcome per (name, port) pair, whatever the order of
the pairs, agree on the status code wherever they agree on the pair. -/
theorem same_outcome_matched (outcome : String → Int → Int × StatusMessage)
    (pairs pairs2 : List (String × Int)) :
    ∀ c ∈ pairs.map (resultOf outcome), ∀ b ∈ pairs2.map (resultOf outcome),
      c.ServerName = b.ServerName → c.Port = b.Port → c.StatusCode = b.StatusCode := by
  intro c hc b hb h1 h2
  obtain ⟨p, _, rfl⟩ := List.mem_map.mp hc
  obtain ⟨q, _, rfl⟩ := List.mem_map.mp hb
  simp only [resultOf] at h1 h2 ⊢
  rw [h1, h2]

/-- C1: started with an empty `Diffs`, `DiffState` returns `nil` and leaves in
`Diffs` exactly the list obtained by going through the current results in order
and, for each, through the baseline in order, with one record (name and port of
the current result, baseline code as original, current code as new, current
message) for each baseline entry of the same name and port and a different
status code; no other field changes. -/
theorem DiffState_eq_diffSpec (n : NginxEct) (h : n.Diffs = []) :
    DiffState n =
      ({ n with Diffs := diffSpec n.ServerStatuses n.LoadedServerStatuses }, none) := by
  rw [DiffState_append, h, List.nil_append]

theorem DiffState_eq_diffSpec_witness :
    ({ NginxEct.zero with
        ServerStatuses := [⟨"a.example.com", 443, 500, "OK"⟩, ⟨"b.example.com", 80, 0, "TIMEOUT"⟩,
          ⟨"c.example.com", 80, 200, "OK"⟩]
        LoadedServerStatuses := [⟨"b.example.com", 80, 200, "OK"⟩,
          ⟨"a.example.com", 443, 200, "OK"⟩, ⟨"a.example.com", 80, 301, "OK"⟩,
          ⟨"b.example.com", 80, 404, "OK"⟩] } : NginxEct).Diffs = [] ∧
    DiffState { NginxEct.zero with
        ServerStatuses := [⟨"a.example.com", 443, 500, "OK"⟩, ⟨"b.example.com", 80, 0, "TIMEOUT"⟩,
          ⟨"c.example.com", 80, 200, "OK"⟩]
        LoadedServerStatuses := [⟨"b.example.com", 80, 200, "OK"⟩,
          ⟨"a.example.com", 443, 200, "OK"⟩, ⟨"a.example.com", 80, 301, "OK"⟩,
          ⟨"b.example.com", 80, 404, "OK"⟩] } =
      ({ NginxEct.zero with
        ServerStatuses := [⟨"a.example.com", 443, 500, "OK"⟩, ⟨"b.example.com", 80, 0, "TIMEOUT"⟩,
          ⟨"c.example.com", 80, 200, "OK"⟩]
        LoadedServerStatuses := [⟨"b.example.com", 80, 200, "OK"⟩,
          ⟨"a.example.com", 443, 200, "OK"⟩, ⟨"a.example.com", 80, 301, "OK"⟩,
          ⟨"b.example.com", 80, 404, "OK"⟩]
        Diffs := [⟨"a.example.com", 443, 200, 500, "OK"⟩, ⟨"b.example.com", 80, 200, 0, "TIMEOUT"⟩,
          ⟨"b.example.com", 80, 404, 0, "TIMEOUT"⟩] }, none) :=
  ⟨rfl, DiffState_eq_diffSpec _ rfl⟩

/-- C2: when every current result and every baseline entry with the same name
and port also have the same status code, `DiffState` (started with an empty
`Diffs`) returns `nil`, leaves the receiver as it was, with an empty `Diffs`,
and the final check of `Diff` returns no error. -/
theorem DiffState_no_change (n : NginxEct) (h : n.Diffs = [])
    (hsame : ∀ c ∈ n.ServerStatuses, ∀ b ∈ n.LoadedServerStatuses,
      c.ServerName = b.ServerName → c.Port = b.Port → c.StatusCode = b.StatusCode) :
    DiffState n = (n, none) ∧ (DiffState n).1.Diffs = [] ∧ diffCheck (DiffState n).1 = none := by
  have hd : DiffState n = (n, none) := by
    rw [DiffState_append, diffSpec_eq_nil _ _ hsame, List.append_nil]
  rw [hd]
  exact ⟨rfl, h, by simp [diffCheck, h]⟩

theorem DiffState_no_change_witness :
    DiffState { NginxEct.zero with
        ServerStatuses := [("b.example.com", 80), ("a.example.com", 443),
          ("a.example.com", 80), ("new.example.com", 80)].map (resultOf sampleOutcome)
        LoadedServerStatuses := [("a.example.com", 80), ("old.example.com", 80),
          ("a.example.com", 443), ("b.example.com", 80)].map (resultOf sampleOutcome) } =
      ({ NginxEct.zero with
        ServerStatuses := [⟨"b.example.com", 80, 0, "TIMEOUT"⟩, ⟨"a.example.com", 443, 200, "OK"⟩,
          ⟨"a.example.com", 80, 0, "TIMEOUT"⟩, ⟨"new.example.com", 80, 0, "TIMEOUT"⟩]
        LoadedServerStatuses := [⟨"a.example.com", 80, 0, "TIMEOUT"⟩,
          ⟨"old.example.com", 80, 0, "TIMEOUT"⟩, ⟨"a.example.com", 443, 200, "OK"⟩,
          ⟨"b.example.com", 80, 0, "TIMEOUT"⟩] }, none) ∧
    (DiffState { NginxEct.zero with
        ServerStatuses := [("b.example.com", 80), ("a.example.com", 443),
          ("a.example.com", 80), ("new.example.com", 80)].map (resultOf sampleOutcome)
        LoadedServerStatuses := [("a.example.com", 80), ("old.example.com", 80),
          ("a.example.com", 443), ("b.example.com", 80)].map (resultOf sampleOutcome) }).1.Diffs
      = [] ∧
    diffCheck (DiffState { NginxEct.zero with
        ServerStatuses := [("b.example.com", 80), ("a.example.com", 443),
          ("a.example.com", 80), ("new.example.com", 80)].map (resultOf sampleOutcome)
        LoadedServerStatuses := [("a.example.com", 80), ("old.example.com", 80),
          ("a.example.com", 443), ("b.example.com", 80)].map (resultOf sampleOutcome) }).1
      = none :=
  DiffState_no_change _ rfl (same_outcome_matched sampleOutcome _ _)

/-- C3: every record `DiffState` emits (started with an empty `Diffs`) carries a
name and port that occur together both in a current result and in a baseline
entry; so a pair missing from the current results or from the baseline has no
record, and when the two lists share no pair nothing is emitted. -/
theorem DiffState_pairs_in_both (n : NginxEct) (h : n.Diffs = []) :
    (∀ d ∈ (DiffState n).1.Diffs,
      (∃ c ∈ n.ServerStatuses, c.ServerName = d.ServerName ∧ c.Port = d.Port) ∧
      (∃ b ∈ n.LoadedServerStatuses, b.ServerName = d.ServerName ∧ b.Port = d.Port)) ∧
    (∀ (name : String) (port : Int),
      (¬ (∃ c ∈ n.ServerStatuses, c.ServerName = name ∧ c.Port = port) ∨
        ¬ (∃ b ∈ n.LoadedServerStatuses, b.ServerName = name ∧ b.Port = port)) →
      ∀ d ∈ (DiffState n).1.Diffs, ¬ (d.ServerName = name ∧ d.Port = port)) ∧
    ((∀ c ∈ n.ServerStatuses, ∀ b ∈ n.LoadedServerStatuses,
        ¬ (c.ServerName = b.ServerName ∧ c.Port = b.Port)) →
      (DiffState n).1.Diffs = []) := by
  have hd : (DiffState n).1.Diffs = diffSpec n.ServerStatuses n.LoadedServerStatuses := by
    rw [DiffState_append, h, List.nil_append]
  have key : ∀ d ∈ (DiffState n).1.Diffs,
      (∃ c ∈ n.ServerStatuses, c.ServerName = d.ServerName ∧ c.Port = d.Port) ∧
      (∃ b ∈ n.LoadedServerStatuses, b.ServerName = d.ServerName ∧ b.Port = d.Port) := by
    intro d hmem
    rw [hd] at hmem
    obtain ⟨c, hc, b, hb, h1, h2, _, rfl⟩ := (mem_diffSpec _ _ _).mp hmem
    exact ⟨⟨c, hc, rfl, rfl⟩, ⟨b, hb, h1, h2⟩⟩
  refine ⟨key, ?_, ?_⟩
  · intro name port hnot d hmem hpair
    obtain ⟨⟨c, hc, hc1, hc2⟩, ⟨b, hb, hb1, hb2⟩⟩ := key d hmem
    rcases hnot with hn | hn
    · exact hn ⟨c, hc, hc1.trans hpair.1, hc2.trans hpair.2⟩
    · exact hn ⟨b, hb, hb1.trans hpair.1, hb2.trans hpair.2⟩
  · intro hdisj
    rw [hd]
    exact diffSpec_eq_nil _ _ (fun c hc b hb h1 h2 => absurd ⟨h1, h2⟩ (hdisj c hc b hb))

theorem DiffState_pairs_in_both_witness :
    (∀ d ∈ (DiffState { NginxEct.zero with
        ServerStatuses := [⟨"added.example.com", 80, 200, "OK"⟩, ⟨"a.example.com", 443, 500, "OK"⟩]
        LoadedServerStatuses := [⟨"a.example.com", 443, 200, "OK"⟩,
          ⟨"removed.example.com", 80, 200, "OK"⟩] }).1.Diffs,
      d = ⟨"a.example.com", 443, 200, 500, "OK"⟩) ∧
    (∀ d ∈ (DiffState { NginxEct.zero with
        ServerStatuses := [⟨"added.example.com", 80, 200, "OK"⟩, ⟨"a.example.com", 443, 500, "OK"⟩]
        LoadedServerStatuses := [⟨"a.example.com", 443, 200, "OK"⟩,
          ⟨"removed.example.com", 80, 200, "OK"⟩] }).1.Diffs,
      ¬ (d.ServerName = "removed.example.com" ∧ d.Port = 80)) :=
  ⟨by decide,
    (DiffState_pairs_in_both { NginxEct.zero with
        ServerStatuses := [⟨"added.example.com", 80, 200, "OK"⟩, ⟨"a.example.com", 443, 500, "OK"⟩]
        LoadedServerStatuses := [⟨"a.example.com", 443, 200, "OK"⟩,
          ⟨"removed.example.com", 80, 200, "OK"⟩] } rfl).2.1 "removed.example.com" 80
      (Or.inl (by decide))⟩

/-- C4: with the single baseline entry (s, p, a) and the single current result
(s, p, b), a ≠ b, `DiffState` (started with an empty `Diffs`) returns `nil` and
leaves exactly one record, with original code a and new code b. -/
theorem DiffState_single_change (n : NginxEct) (s : String) (p a b : Int)
    (msgOld msgNew : StatusMessage) (hab : a ≠ b) (h : n.Diffs = [])
    (hcur : n.ServerStatuses = [⟨s, p, b, msgNew⟩])
    (hbase : n.LoadedServerStatuses = [⟨s, p, a, msgOld⟩]) :
    (DiffState n).2 = none ∧
    (DiffState n).1.Diffs = [⟨s, p, a, b, msgNew⟩] ∧
    (DiffState n).1.Diffs.length = 1 := by
  have hd : (DiffState n).1.Diffs = [⟨s, p, a, b, msgNew⟩] := by
    rw [DiffState_append, h, hcur, hbase]
    simp [diffSpec, hab]
  refine ⟨by rw [DiffState_append], hd, by rw [hd]; rfl⟩

theorem DiffState_single_change_witness :
    (200 : Int) ≠ 500 ∧
    (DiffState { NginxEct.zero with
        ServerStatuses := [⟨"a.example.com", 443, 500, "OK"⟩]
        LoadedServerStatuses := [⟨"a.example.com", 443, 200, "OK"⟩] }).2 = none ∧
    (DiffState { NginxEct.zero with
        ServerStatuses := [⟨"a.example.com", 443, 500, "OK"⟩]
        LoadedServerStatuses := [⟨"a.example.com", 443, 200, "OK"⟩] }).1.Diffs =
      [⟨"a.example.com", 443, 200, 500, "OK"⟩] ∧
    (DiffState { NginxEct.zero with
        ServerStatuses := [⟨"a.example.com", 443, 500, "OK"⟩]
        LoadedServerStatuses := [⟨"a.example.com", 443, 200, "OK"⟩] }).1.Diffs.length = 1 :=
  ⟨by decide, DiffState_single_change _ "a.example.com" 443 200 500 "OK" "OK" (by decide)
    rfl rfl rfl⟩

/-! ## Theorems: FilterSupportedProtocols -/

theorem hasSupportedPort_iff (ports : List String) :
    hasSupportedPort ports = true ↔ "80" ∈ ports ∨ "443" ∈ ports := by
  induction ports with
  | nil => simp [hasSupportedPort]
  | cons port rest ih =>
    by_cases h : utils.Contains supportedPorts port = true
    · have hp := (utils.Contains_iff _ _).mp h
      simp only [supportedPorts, List.mem_cons, List.mem_singleton, List.not_mem_nil,
        or_false] at hp
      have hgoal : "80" ∈ port :: rest ∨ "443" ∈ port :: rest := by
        rcases hp with hp | hp
        · exact Or.inl (by rw [hp]; exact List.mem_cons_self _ _)
        · exact Or.inr (by rw [hp]; exact List.mem_cons_self _ _)
      simp only [hasSupportedPort, h, if_true, true_iff]
      exact hgoal
    · have hp : ¬ port ∈ supportedPorts := fun hm => h ((utils.Contains_iff _ _).mpr hm)
      simp only [supportedPorts, List.mem_cons, List.mem_singleton, List.not_mem_nil,
        or_false, not_or] at hp
      have h80 : ¬ "80" = port := fun e => hp.1 e.symm
      have h443 : ¬ "443" = port := fun e => hp.2 e.symm
      simp only [hasSupportedPort, h, List.mem_cons, h80, h443, false_or]
      simpa using ih

theorem foldl_addSupported (blocks cleanBlocks : List ServerBlock) :
    blocks.foldl addSupported cleanBlocks =
      cleanBlocks ++ blocks.filter (fun sb => decide ("80" ∈ sb.Port ∨ "443" ∈ sb.Port)) := by
  induction blocks generalizing cleanBlocks with
  | nil => simp
  | cons sb rest ih =>
    rw [List.foldl_cons, ih]
    by_cases h : "80" ∈ sb.Port ∨ "443" ∈ sb.Port
    · have hs := (hasSupportedPort_iff sb.Port).mpr h
      simp [addSupported, hs, List.filter_cons, h]
    · have hs : hasSupportedPort sb.Port = false := by
        cases hv : hasSupportedPort sb.Port
        · rfl
        · exact absurd ((hasSupportedPort_iff sb.Port).mp hv) h
      simp [addSupported, hs, List.filter_cons, h]

/-- C5: `FilterSupportedProtocols` returns `nil` and keeps, in their order and
once each, exactly the blocks whose port list has the token "80" or the token
"443"; a block whose only port is "8080" is not kept, whatever its names, and
every block kept has the token "80" or "443". -/
theorem FilterSupportedProtocols_eq_filter (n : NginxEct) :
    FilterSupportedProtocols n =
      ({ n with ServerBlocks :=
          n.ServerBlocks.filter (fun sb => decide ("80" ∈ sb.Port ∨ "443" ∈ sb.Port)) },
        none) ∧
    (∀ names : List String,
      (⟨names, ["8080"]⟩ : ServerBlock) ∉ (FilterSupportedProtocols n).1.ServerBlocks) ∧
    (∀ sb ∈ (FilterSupportedProtocols n).1.ServerBlocks, "80" ∈ sb.Port ∨ "443" ∈ sb.Port) := by
  have hf : FilterSupportedProtocols n =
      ({ n with ServerBlocks :=
          n.ServerBlocks.filter (fun sb => decide ("80" ∈ sb.Port ∨ "443" ∈ sb.Port)) },
        none) := by
    simp [FilterSupportedProtocols, foldl_addSupported]
  refine ⟨hf, ?_, ?_⟩
  · intro names hmem
    rw [hf] at hmem
    have hport : "80" ∈ ["8080"] ∨ "443" ∈ ["8080"] := by
      simpa using (List.mem_filter.mp hmem).2
    exact absurd hport (by decide)
  · intro sb hmem
    rw [hf] at hmem
    simpa using (List.mem_filter.mp hmem).2

/-! ## Theorems: ParseConfig -/

theorem ParseConfig_err (n : NginxEct) : (ParseConfig n).2 = (bufio.Scan n.ConfigStr).2 := by
  unfold ParseConfig
  rcases hs : bufio.Scan n.ConfigStr with ⟨lines, _ | err⟩ <;> simp

theorem ParseConfig_ok (n : NginxEct) (h : (ParseConfig n).2 = none) :
    ParseConfig n =
      ({ n with ServerBlocks :=
          (scanBlocks n.IgnoreServers (bufio.Scan n.ConfigStr).1).foldl addUnique [] },
        none) := by
  rw [ParseConfig_err] at h
  unfold ParseConfig
  rcases hs : bufio.Scan n.ConfigStr with ⟨lines, _ | err⟩
  · simp
  · rw [hs] at h
    simp at h

theorem ParseConfig_fail (n : NginxEct) (err : String) (h : (ParseConfig n).2 = some err) :
    ParseConfig n = (n, some err) := by
  rw [ParseConfig_err] at h
  unfold ParseConfig
  rcases hs : bufio.Scan n.ConfigStr with ⟨lines, _ | err2⟩
  · rw [hs] at h
    simp at h
  · rw [hs] at h
    simp at h
    simp [h]

theorem isUnique_iff (block : ServerBlock) (kept : List ServerBlock) :
    isUnique block kept = true ↔ block ∉ kept := by
  induction kept with
  | nil => simp [isUnique]
  | cons k rest ih =>
    by_cases h : block = k
    · simp [isUnique, DeepEqual, h]
    · simp [isUnique, DeepEqual, h, ih]

theorem addUnique_of_mem (kept : List ServerBlock) (block : ServerBlock) (h : block ∈ kept) :
    addUnique kept block = kept := by
  have hu : isUnique block kept = false := by
    cases hv : isUnique block kept
    · rfl
    · exact absurd h ((isUnique_iff _ _).mp hv)
  simp [addUnique, hu]

theorem addUnique_of_not_mem (kept : List ServerBlock) (block : ServerBlock)
    (h : block ∉ kept) : addUnique kept block = kept ++ [block] := by
  simp [addUnique, (isUnique_iff _ _).mpr h]

/-- The deduplication loop, started empty: no repetition, the same members as
the input, in the order of their first occurrence in the input. -/
theorem foldl_addUnique_spec (blocks : List ServerBlock) :
    (blocks.foldl addUnique []).Nodup ∧
    (∀ b, b ∈ blocks.foldl addUnique [] ↔ b ∈ blocks) ∧
    (blocks.foldl addUnique []).Pairwise
      (fun a b => blocks.indexOf a < blocks.indexOf b) := by
  induction blocks using List.reverseRecOn with
  | nil => simp
  | append_singleton l x ih =>
    obtain ⟨hnd, hmem, hpw⟩ := ih
    rw [List.foldl_append, List.foldl_cons, List.foldl_nil]
    have hshift : ∀ a ∈ l.foldl addUnique [], List.indexOf a (l ++ [x]) = List.indexOf a l :=
      fun a ha => List.indexOf_append_of_mem ((hmem a).mp ha)
    by_cases hx : x ∈ l.foldl addUnique []
    · rw [addUnique_of_mem _ _ hx]
      refine ⟨hnd, ?_, ?_⟩
      · intro b
        rw [hmem, List.mem_append, List.mem_singleton]
        constructor
        · exact Or.inl
        · rintro (hb | hb)
          · exact hb
          · rw [hb]; exact (hmem x).mp hx
      · refine hpw.imp_of_mem ?_
        intro a b ha hb hab
        rw [hshift a ha, hshift b hb]
        exact hab
    · rw [addUnique_of_not_mem _ _ hx]
      have hxl : x ∉ l := fun h => hx ((hmem x).mpr h)
      refine ⟨?_, ?_, ?_⟩
      · rw [List.nodup_append]
        refine ⟨hnd, List.nodup_singleton x, ?_⟩
        intro a ha hax
        rw [List.mem_singleton] at hax
        exact hx (hax ▸ ha)
      · intro b
        rw [List.mem_append, List.mem_append, hmem]
      · rw [List.pairwise_append]
        refine ⟨?_, List.pairwise_singleton _ _, ?_⟩
        · refine hpw.imp_of_mem ?_
          intro a b ha hb hab
          rw [hshift a ha, hshift b hb]
          exact hab
        · intro a ha b hb
          rw [List.mem_singleton] at hb
          rw [hb, hshift a ha, List.indexOf_append_of_not_mem hxl]
          have : List.indexOf a l < l.length := List.indexOf_lt_length.mpr ((hmem a).mp ha)
          omega

/-- C6: when `ParseConfig` returns `nil`, the block list it stores has no two
equal blocks, has exactly the blocks finalized during the scan as members, and
lists them in the order of their first finalization. -/
theorem ParseConfig_dedup (n : NginxEct) (h : (ParseConfig n).2 = none) :
    (ParseConfig n).1.ServerBlocks.Nodup ∧
    (∀ b, b ∈ (ParseConfig n).1.ServerBlocks ↔
      b ∈ scanBlocks n.IgnoreServers (bufio.Scan n.ConfigStr).1) ∧
    (ParseConfig n).1.ServerBlocks.Pairwise
      (fun a b =>
        (scanBlocks n.IgnoreServers (bufio.Scan n.ConfigStr).1).indexOf a <
          (scanBlocks n.IgnoreServers (bufio.Scan n.ConfigStr).1).indexOf b) := by
  rw [ParseConfig_ok n h]
  exact foldl_addUnique_spec _

theorem ParseConfig_dedup_witness :
    (ParseConfig (withConfig (sampleBlock ++ sampleBlock) [])).2 = none ∧
    scanBlocks [] (bufio.Scan (sampleBlock ++ sampleBlock)).1 =
      [⟨["example.com"], ["80"]⟩, ⟨["example.com"], ["80", "443"]⟩,
        ⟨["example.com"], ["80"]⟩, ⟨["example.com"], ["80", "443"]⟩] ∧
    (ParseConfig (withConfig (sampleBlock ++ sampleBlock) [])).1.ServerBlocks =
      [⟨["example.com"], ["80"]⟩, ⟨["example.com"], ["80", "443"]⟩] ∧
    (ParseConfig (withConfig (sampleBlock ++ sampleBlock) [])).1.ServerBlocks.Nodup :=
  ⟨rfl, rfl, rfl, (ParseConfig_dedup (withConfig (sampleBlock ++ sampleBlock) []) rfl).1⟩


/-! ## Theorems: text helpers -/

theorem containsChars_iff (substr s : List Char) :
    strings.containsChars substr s = true ↔ substr <:+: s := by
  induction s with
  | nil => simp [strings.containsChars]
  | cons c cs ih =>
    rw [strings.containsChars, Bool.or_eq_true, ih, List.infix_cons_iff,
      List.isPrefixOf_iff_prefix]

theorem dropCR_eq (line : List Char) :
    bufio.dropCR line = line ∨ line = bufio.dropCR line ++ ['\r'] := by
  unfold bufio.dropCR
  split
  · rename_i rest h
    right
    have := congrArg List.reverse h
    simpa using this
  · left; rfl

theorem containsChars_dropCR (substr line : List Char) (hne : substr ≠ [])
    (hlast : substr.getLast? ≠ some '\r')
    (h : strings.containsChars substr line = true) :
    strings.containsChars substr (bufio.dropCR line) = true := by
  rcases dropCR_eq line with he | he
  · rw [he]; exact h
  · rw [containsChars_iff] at h ⊢
    rw [he, List.infix_concat_iff] at h
    rcases h with hs | hi
    · exfalso
      obtain ⟨t, ht⟩ := hs
      have h1 := congrArg List.getLast? ht
      rw [List.getLast?_append, List.getLast?_append] at h1
      cases hsub : substr.getLast? with
      | none => exact hne (List.getLast?_eq_none_iff.mp hsub)
      | some x =>
        rw [hsub] at h1 hlast
        simp at h1
        exact hlast (by rw [h1])
    · exact hi

theorem rawLines_ne_nil (c : Char) (cs : List Char) : bufio.rawLines (c :: cs) ≠ [] := by
  unfold bufio.rawLines
  split
  · simp
  · split <;> simp

theorem rawLines_cons_ne (c : Char) (cs : List Char) (hc : c ≠ '\n') :
    bufio.rawLines (c :: cs) =
      match bufio.rawLines cs with
      | [] => [[c]]
      | line :: lines => (c :: line) :: lines := by
  rw [bufio.rawLines, if_neg hc]

theorem rawLines_append_newline (s t : List Char) :
    bufio.rawLines (s ++ '\n' :: t) = bufio.rawLines (s ++ ['\n']) ++ bufio.rawLines t := by
  induction s with
  | nil => simp [bufio.rawLines]
  | cons c s ih =>
    by_cases hc : c = '\n'
    · simp [bufio.rawLines, hc, ih]
    · rw [List.cons_append, List.cons_append, rawLines_cons_ne _ _ hc, rawLines_cons_ne _ _ hc, ih]
      cases hr : bufio.rawLines (s ++ ['\n']) with
      | nil =>
        cases s with
        | nil => simp [bufio.rawLines] at hr
        | cons d ds => exact absurd hr (rawLines_ne_nil d _)
      | cons line lines => simp

theorem rawLines_first (first more : List Char) (h : '\n' ∉ first) :
    bufio.rawLines (first ++ '\n' :: more) = first :: bufio.rawLines more := by
  induction first with
  | nil => simp [bufio.rawLines]
  | cons c s ih =>
    have hc : c ≠ '\n' := fun e => h (by rw [e]; exact List.mem_cons_self _ _)
    have hs : '\n' ∉ s := fun e => h (List.mem_cons_of_mem _ e)
    rw [List.cons_append, rawLines_cons_ne _ _ hc, ih hs]

theorem scanTokens_cons_long (line : List Char) (lines : List (List Char))
    (hlen : (String.mk line).utf8ByteSize ≥ bufio.MaxScanTokenSize) :
    bufio.scanTokens (line :: lines) = ([], some bufio.ErrTooLong) := by
  rw [bufio.scanTokens, if_pos hlen]

theorem scanTokens_cons_short (line : List Char) (lines : List (List Char))
    (hlen : ¬ (String.mk line).utf8ByteSize ≥ bufio.MaxScanTokenSize) :
    bufio.scanTokens (line :: lines) =
      (String.mk (bufio.dropCR line) :: (bufio.scanTokens lines).1,
        (bufio.scanTokens lines).2) := by
  rw [bufio.scanTokens, if_neg hlen]

theorem scanTokens_append_ok (l1 l2 : List (List Char)) (h : (bufio.scanTokens l1).2 = none) :
    bufio.scanTokens (l1 ++ l2) =
      ((bufio.scanTokens l1).1 ++ (bufio.scanTokens l2).1, (bufio.scanTokens l2).2) := by
  induction l1 with
  | nil => simp [bufio.scanTokens]
  | cons line lines ih =>
    by_cases hlen : (String.mk line).utf8ByteSize ≥ bufio.MaxScanTokenSize
    · rw [scanTokens_cons_long _ _ hlen] at h
      simp at h
    · rw [scanTokens_cons_short _ _ hlen] at h
      rw [List.cons_append, scanTokens_cons_short _ _ hlen, scanTokens_cons_short _ _ hlen,
        ih h]
      simp

theorem scanTokens_append_err (l1 l2 : List (List Char)) (err : String)
    (h : (bufio.scanTokens l1).2 = some err) :
    bufio.scanTokens (l1 ++ l2) = bufio.scanTokens l1 := by
  induction l1 with
  | nil => simp [bufio.scanTokens] at h
  | cons line lines ih =>
    by_cases hlen : (String.mk line).utf8ByteSize ≥ bufio.MaxScanTokenSize
    · rw [List.cons_append, scanTokens_cons_long _ _ hlen, scanTokens_cons_long _ _ hlen]
    · rw [scanTokens_cons_short _ _ hlen] at h
      rw [List.cons_append, scanTokens_cons_short _ _ hlen, scanTokens_cons_short _ _ hlen,
        ih h]

theorem scanLine_shift (ign : List String) (pre kept : List ServerBlock) (cur : ServerBlock)
    (line : String) :
    scanLine ign ⟨pre ++ kept, cur⟩ line =
      ⟨pre ++ (scanLine ign ⟨kept, cur⟩ line).serverBlocks,
        (scanLine ign ⟨kept, cur⟩ line).currentBlock⟩ := by
  simp only [scanLine]
  split_ifs <;> simp [List.append_assoc]

theorem foldl_scanLine_shift (ign : List String) (pre : List ServerBlock) (lines : List String)
    (kept : List ServerBlock) (cur : ServerBlock) :
    lines.foldl (scanLine ign) ⟨pre ++ kept, cur⟩ =
      ⟨pre ++ (lines.foldl (scanLine ign) ⟨kept, cur⟩).serverBlocks,
        (lines.foldl (scanLine ign) ⟨kept, cur⟩).currentBlock⟩ := by
  induction lines generalizing kept cur with
  | nil => simp
  | cons line rest ih =>
    rw [List.foldl_cons, List.foldl_cons, scanLine_shift, ih]

theorem scanLine_reset (ign : List String) (kept : List ServerBlock) (cur : ServerBlock)
    (line : String) (h : strings.Contains line "server \x7b" = true) :
    scanLine ign ⟨kept, cur⟩ line = scanLine ign ⟨kept, ⟨[], []⟩⟩ line := by
  simp [scanLine, stepOpen, h]

/-- A scan that starts with a line holding the block opener does not depend on
the accumulator it starts from: it appends the blocks a fresh scan finalizes. -/
theorem foldl_scanLine_restart (ign : List String) (first : String) (rest : List String)
    (h : strings.Contains first "server \x7b" = true) (kept : List ServerBlock)
    (cur : ServerBlock) :
    (first :: rest).foldl (scanLine ign) ⟨kept, cur⟩ =
      ⟨kept ++ ((first :: rest).foldl (scanLine ign) ⟨[], ⟨[], []⟩⟩).serverBlocks,
        ((first :: rest).foldl (scanLine ign) ⟨[], ⟨[], []⟩⟩).currentBlock⟩ := by
  have hshift := foldl_scanLine_shift ign kept (first :: rest) [] ⟨[], []⟩
  rw [List.append_nil] at hshift
  rw [← hshift, List.foldl_cons, List.foldl_cons, scanLine_reset ign kept cur first h]

theorem scanBlocks_twice (ign : List String) (first : String) (rest : List String)
    (h : strings.Contains first "server \x7b" = true) :
    scanBlocks ign ((first :: rest) ++ (first :: rest)) =
      scanBlocks ign (first :: rest) ++ scanBlocks ign (first :: rest) := by
  unfold scanBlocks
  rw [List.foldl_append, foldl_scanLine_restart ign first rest h]

theorem foldl_addUnique_absorb (blocks kept : List ServerBlock) (h : ∀ b ∈ blocks, b ∈ kept) :
    blocks.foldl addUnique kept = kept := by
  induction blocks with
  | nil => rfl
  | cons b rest ih =>
    rw [List.foldl_cons, addUnique_of_mem _ _ (h b (List.mem_cons_self _ _))]
    exact ih (fun x hx => h x (List.mem_cons_of_mem _ hx))

theorem foldl_addUnique_twice (blocks : List ServerBlock) :
    (blocks ++ blocks).foldl addUnique [] = blocks.foldl addUnique [] := by
  rw [List.foldl_append]
  exact foldl_addUnique_absorb _ _ (fun b hb => ((foldl_addUnique_spec blocks).2.1 b).mpr hb)

theorem ParseConfig_eq (n : NginxEct) :
    ParseConfig n =
      match (bufio.Scan n.ConfigStr).2 with
      | some err => (n, some err)
      | none =>
        ({ n with ServerBlocks :=
            (scanBlocks n.IgnoreServers (bufio.Scan n.ConfigStr).1).foldl addUnique [] },
          none) := by
  unfold ParseConfig
  rcases bufio.Scan n.ConfigStr with ⟨lines, _ | err⟩ <;> rfl

/-- Scanning two copies of a newline-terminated text whose first line holds the
block opener: the same error, and without error the same blocks after
deduplication. -/
theorem Scan_two_copies (ign : List String) (b : String) (first more : List Char)
    (hb : b.data = first ++ '\n' :: more) (hfirst : '\n' ∉ first)
    (hopen : strings.containsChars "server \x7b".data first = true)
    (hend : b.data.getLast? = some '\n') :
    (bufio.Scan (b ++ b)).2 = (bufio.Scan b).2 ∧
    ((bufio.Scan b).2 = none →
      (scanBlocks ign (bufio.Scan (b ++ b)).1).foldl addUnique [] =
        (scanBlocks ign (bufio.Scan b).1).foldl addUnique []) := by
  obtain ⟨s, hs⟩ := List.getLast?_eq_some_iff.mp hend
  have hlines : bufio.rawLines (b ++ b).data = bufio.rawLines b.data ++ bufio.rawLines b.data := by
    rw [String.data_append]
    conv_lhs => rw [hs, List.append_assoc, List.singleton_append, rawLines_append_newline, ← hs]
  have hL : bufio.rawLines b.data = first :: bufio.rawLines more := by
    rw [hb, rawLines_first _ _ hfirst]
  unfold bufio.Scan
  rw [hlines]
  cases herr : (bufio.scanTokens (bufio.rawLines b.data)).2 with
  | some err =>
    rw [scanTokens_append_err _ _ err herr, herr]
    exact ⟨rfl, fun h => by simp at h⟩
  | none =>
    rw [scanTokens_append_ok _ _ herr, herr]
    refine ⟨rfl, fun _ => ?_⟩
    have hshort : ¬ (String.mk first).utf8ByteSize ≥ bufio.MaxScanTokenSize := by
      intro hlong
      rw [hL, scanTokens_cons_long _ _ hlong] at herr
      simp at herr
    have hT : (bufio.scanTokens (bufio.rawLines b.data)).1 =
        String.mk (bufio.dropCR first) :: (bufio.scanTokens (bufio.rawLines more)).1 := by
      rw [hL, scanTokens_cons_short _ _ hshort]
    have hcontains : strings.Contains (String.mk (bufio.dropCR first)) "server \x7b" = true :=
      containsChars_dropCR _ _ (by decide) (by decide) hopen
    rw [hT, scanBlocks_twice ign _ _ hcontains, foldl_addUnique_twice]

/-- C7 (amended): for a block text `b` that ends with a newline and whose first
line (`first`, the text before the first newline) contains `server {`,
`ParseConfig` on the two copies `b ++ b` returns the same error and stores the
same block list as on one copy `b`: the second copy adds no group. So when one
copy alone yields exactly the group `g`, the two copies yield exactly the group
`g`. -/
theorem ParseConfig_two_copies (n : NginxEct) (b : String) (first more : List Char)
    (hb : b.data = first ++ '\n' :: more) (hfirst : '\n' ∉ first)
    (hopen : "server \x7b".data <:+: first)
    (hend : b.data.getLast? = some '\n') :
    (ParseConfig { n with ConfigStr := b ++ b }).2 = (ParseConfig { n with ConfigStr := b }).2 ∧
    (ParseConfig { n with ConfigStr := b ++ b }).1.ServerBlocks =
      (ParseConfig { n with ConfigStr := b }).1.ServerBlocks ∧
    ∀ g : ServerBlock,
      ParseConfig { n with ConfigStr := b } =
          ({ n with ConfigStr := b, ServerBlocks := [g] }, none) →
        ParseConfig { n with ConfigStr := b ++ b } =
          ({ n with ConfigStr := b ++ b, ServerBlocks := [g] }, none) := by
  obtain ⟨herr, hblocks⟩ := Scan_two_copies n.IgnoreServers b first more hb hfirst
    ((containsChars_iff _ _).mpr hopen) hend
  rw [ParseConfig_eq { n with ConfigStr := b ++ b }, ParseConfig_eq { n with ConfigStr := b }]
  simp only [herr]
  cases hscan : (bufio.Scan b).2 with
  | some err =>
    refine ⟨rfl, rfl, fun g hg => ?_⟩
    simp at hg
  | none =>
    simp only [hblocks hscan]
    refine ⟨by trivial, by trivial, fun g hg => ?_⟩
    simp only [Prod.mk.injEq, and_true] at hg ⊢
    have hg2 := congrArg NginxEct.ServerBlocks hg
    simp only at hg2
    rw [hg2]

theorem ParseConfig_two_copies_witness :
    ParseConfig (withConfig "server \x7b\n  listen 80;\n  server_name a.example.com;\n\x7d\n" []) =
      ({ withConfig "server \x7b\n  listen 80;\n  server_name a.example.com;\n\x7d\n" [] with
          ServerBlocks := [⟨["a.example.com"], ["80"]⟩] }, none) ∧
    ParseConfig { withConfig "" [] with
        ConfigStr := "server \x7b\n  listen 80;\n  server_name a.example.com;\n\x7d\n" ++
          "server \x7b\n  listen 80;\n  server_name a.example.com;\n\x7d\n" } =
      ({ withConfig "" [] with
          ConfigStr := "server \x7b\n  listen 80;\n  server_name a.example.com;\n\x7d\n" ++
            "server \x7b\n  listen 80;\n  server_name a.example.com;\n\x7d\n"
          ServerBlocks := [⟨["a.example.com"], ["80"]⟩] }, none) :=
  ⟨rfl, (ParseConfig_two_copies (withConfig "" [])
    "server \x7b\n  listen 80;\n  server_name a.example.com;\n\x7d\n"
    "server \x7b".data "  listen 80;\n  server_name a.example.com;\n\x7d\n".data
    (by decide) (by decide) ⟨[], [], rfl⟩ (by decide)).2.2 ⟨["a.example.com"], ["80"]⟩ rfl⟩

/-- C7 (as stated) fails: two byte-identical server blocks, each with an
admissible server name and numeric ports, for which `ParseConfig` stores two
groups, because the block has a `listen` directive after a nested closing
brace. Two groups are also stored for two copies of a flat block when the
copies are not separated by a newline, or when the opener is written
`server{`, although one copy alone gives one group. -/
theorem ParseConfig_two_copies_counterexample :
    (ParseConfig (withConfig (sampleBlock ++ sampleBlock) []) =
      ({ withConfig (sampleBlock ++ sampleBlock) [] with
          ServerBlocks := [⟨["example.com"], ["80"]⟩, ⟨["example.com"], ["80", "443"]⟩] },
        none) ∧
      (ParseConfig (withConfig (sampleBlock ++ sampleBlock) [])).1.ServerBlocks.length ≠ 1) ∧
    ((ParseConfig (withConfig sampleUnterminated [])).1.ServerBlocks =
        [⟨["a.example.com"], ["80"]⟩] ∧
      (ParseConfig (withConfig (sampleUnterminated ++ sampleUnterminated) [])).1.ServerBlocks =
        [⟨["a.example.com"], ["80"]⟩,
          ⟨["a.example.com", "a.example.com"], ["80", "80"]⟩]) ∧
    ((ParseConfig (withConfig sampleUnspaced [])).1.ServerBlocks =
        [⟨["a.example.com"], ["80"]⟩] ∧
      (ParseConfig (withConfig (sampleUnspaced ++ sampleUnspaced) [])).1.ServerBlocks =
        [⟨["a.example.com"], ["80"]⟩,
          ⟨["a.example.com", "a.example.com"], ["80", "80"]⟩]) :=
  ⟨⟨rfl, by decide⟩, ⟨rfl, rfl⟩, ⟨rfl, rfl⟩⟩

/-! ## Theorems: what the scan stores -/

theorem addServer_names (ign : List String) (cur : ServerBlock) (server : String)
    (P : String → Prop)
    (hP : ∀ s : String, s ≠ "" → s ≠ "on" → s ≠ "_" → s ≠ "localhost" → s ∉ ign → P s)
    (h : ∀ name ∈ cur.ServerName, P name) :
    (∀ name ∈ (addServer ign cur server).ServerName, P name) ∧
      (addServer ign cur server).Port = cur.Port := by
  simp only [addServer]
  split_ifs with hg
  · refine ⟨?_, rfl⟩
    intro name hname
    rcases List.mem_append.mp hname with hm | hm
    · exact h name hm
    · rw [List.mem_singleton] at hm
      rw [hm]
      exact hP server hg.1 hg.2.1 hg.2.2.1 hg.2.2.2.1
        ((utils.Contains_eq_false_iff _ _).mp hg.2.2.2.2)
  · exact ⟨h, rfl⟩

theorem foldl_addServer_names (ign : List String) (servers : List String) (cur : ServerBlock)
    (P : String → Prop)
    (hP : ∀ s : String, s ≠ "" → s ≠ "on" → s ≠ "_" → s ≠ "localhost" → s ∉ ign → P s)
    (h : ∀ name ∈ cur.ServerName, P name) :
    (∀ name ∈ (servers.foldl (addServer ign) cur).ServerName, P name) ∧
      (servers.foldl (addServer ign) cur).Port = cur.Port := by
  induction servers generalizing cur with
  | nil => exact ⟨h, rfl⟩
  | cons server rest ih =>
    rw [List.foldl_cons]
    obtain ⟨h1, h2⟩ := addServer_names ign cur server P hP h
    obtain ⟨h3, h4⟩ := ih (addServer ign cur server) h1
    exact ⟨h3, h4.trans h2⟩

theorem addPort_ports (cur : ServerBlock) (port : String)
    (h : ∀ p ∈ cur.Port, ∃ v, strconv.Atoi p = .ok v) :
    (∀ p ∈ (addPort cur port).Port, ∃ v, strconv.Atoi p = .ok v) ∧
      (addPort cur port).ServerName = cur.ServerName := by
  unfold addPort
  split
  · rename_i v hv
    refine ⟨?_, rfl⟩
    intro p hp
    rcases List.mem_append.mp hp with hm | hm
    · exact h p hm
    · rw [List.mem_singleton] at hm
      exact ⟨v, by rw [hm]; exact hv⟩
  · exact ⟨h, rfl⟩

theorem foldl_addPort_ports (ports : List String) (cur : ServerBlock)
    (h : ∀ p ∈ cur.Port, ∃ v, strconv.Atoi p = .ok v) :
    (∀ p ∈ (ports.foldl addPort cur).Port, ∃ v, strconv.Atoi p = .ok v) ∧
      (ports.foldl addPort cur).ServerName = cur.ServerName := by
  induction ports generalizing cur with
  | nil => exact ⟨h, rfl⟩
  | cons port rest ih =>
    rw [List.foldl_cons]
    obtain ⟨h1, h2⟩ := addPort_ports cur port h
    obtain ⟨h3, h4⟩ := ih (addPort cur port) h1
    exact ⟨h3, h4.trans h2⟩

/-- One line of the scan keeps this property of the accumulator and of the
finalized blocks: every name passed the guard of `addServer` and every port
token is accepted by `Atoi`. -/
theorem scanLine_inv (ign : List String) (P : String → Prop)
    (hP : ∀ s : String, s ≠ "" → s ≠ "on" → s ≠ "_" → s ≠ "localhost" → s ∉ ign → P s)
    (st : ScanState) (line : String)
    (hcur : (∀ name ∈ st.currentBlock.ServerName, P name) ∧
      (∀ p ∈ st.currentBlock.Port, ∃ v, strconv.Atoi p = .ok v))
    (hkept : ∀ b ∈ st.serverBlocks, (∀ name ∈ b.ServerName, P name) ∧
      (∀ p ∈ b.Port, ∃ v, strconv.Atoi p = .ok v)) :
    ((∀ name ∈ (scanLine ign st line).currentBlock.ServerName, P name) ∧
      (∀ p ∈ (scanLine ign st line).currentBlock.Port, ∃ v, strconv.Atoi p = .ok v)) ∧
    (∀ b ∈ (scanLine ign st line).serverBlocks, (∀ name ∈ b.ServerName, P name) ∧
      (∀ p ∈ b.Port, ∃ v, strconv.Atoi p = .ok v)) := by
  have h1 : (∀ name ∈ (stepOpen line st.currentBlock).ServerName, P name) ∧
      (∀ p ∈ (stepOpen line st.currentBlock).Port, ∃ v, strconv.Atoi p = .ok v) := by
    unfold stepOpen
    split_ifs
    · exact ⟨fun _ hn => absurd hn (List.not_mem_nil _), fun _ hp => absurd hp (List.not_mem_nil _)⟩
    · exact hcur
  have h2 : (∀ name ∈ (stepNames ign line (stepOpen line st.currentBlock)).ServerName, P name) ∧
      (∀ p ∈ (stepNames ign line (stepOpen line st.currentBlock)).Port,
        ∃ v, strconv.Atoi p = .ok v) := by
    unfold stepNames
    split
    · obtain ⟨ha, hb⟩ := foldl_addServer_names ign _ (stepOpen line st.currentBlock) P hP h1.1
      exact ⟨ha, by rw [hb]; exact h1.2⟩
    · exact h1
  have h3 : (∀ name ∈ (stepPorts line
        (stepNames ign line (stepOpen line st.currentBlock))).ServerName, P name) ∧
      (∀ p ∈ (stepPorts line (stepNames ign line (stepOpen line st.currentBlock))).Port,
        ∃ v, strconv.Atoi p = .ok v) := by
    unfold stepPorts
    split
    · obtain ⟨ha, hb⟩ := foldl_addPort_ports _
        (stepNames ign line (stepOpen line st.currentBlock)) h2.2
      exact ⟨by rw [hb]; exact h2.1, ha⟩
    · exact h2
  simp only [scanLine]
  split_ifs
  · refine ⟨h3, ?_⟩
    intro b hb
    rcases List.mem_append.mp hb with hm | hm
    · exact hkept b hm
    · rw [List.mem_singleton] at hm
      rw [hm]
      exact h3
  · exact ⟨h3, hkept⟩

theorem foldl_scanLine_inv (ign : List String) (P : String → Prop)
    (hP : ∀ s : String, s ≠ "" → s ≠ "on" → s ≠ "_" → s ≠ "localhost" → s ∉ ign → P s)
    (lines : List String) (st : ScanState)
    (hcur : (∀ name ∈ st.currentBlock.ServerName, P name) ∧
      (∀ p ∈ st.currentBlock.Port, ∃ v, strconv.Atoi p = .ok v))
    (hkept : ∀ b ∈ st.serverBlocks, (∀ name ∈ b.ServerName, P name) ∧
      (∀ p ∈ b.Port, ∃ v, strconv.Atoi p = .ok v)) :
    ∀ b ∈ (lines.foldl (scanLine ign) st).serverBlocks, (∀ name ∈ b.ServerName, P name) ∧
      (∀ p ∈ b.Port, ∃ v, strconv.Atoi p = .ok v) := by
  induction lines generalizing st with
  | nil => exact hkept
  | cons line rest ih =>
    rw [List.foldl_cons]
    obtain ⟨h1, h2⟩ := scanLine_inv ign P hP st line hcur hkept
    exact ih _ h1 h2

/-- Every block in the receiver after `ParseConfig`, when it returned `nil` or
started without blocks, has only names that passed the guard and only port
tokens that `Atoi` accepts. -/
theorem ParseConfig_blocks_inv (n : NginxEct)
    (h : (ParseConfig n).2 = none ∨ n.ServerBlocks = []) :
    ∀ b ∈ (ParseConfig n).1.ServerBlocks,
      (∀ name ∈ b.ServerName,
        name ≠ "" ∧ name ≠ "on" ∧ name ≠ "_" ∧ name ≠ "localhost" ∧ name ∉ n.IgnoreServers) ∧
      (∀ p ∈ b.Port, ∃ v, strconv.Atoi p = .ok v) := by
  cases hres : (ParseConfig n).2 with
  | none =>
    rw [ParseConfig_ok n hres]
    intro b hb
    have hmem := ((foldl_addUnique_spec _).2.1 b).mp hb
    exact foldl_scanLine_inv n.IgnoreServers
      (fun name => name ≠ "" ∧ name ≠ "on" ∧ name ≠ "_" ∧ name ≠ "localhost" ∧
        name ∉ n.IgnoreServers)
      (fun s h1 h2 h3 h4 h5 => ⟨h1, h2, h3, h4, h5⟩) _ _
      ⟨fun _ hn => absurd hn (List.not_mem_nil _), fun _ hp => absurd hp (List.not_mem_nil _)⟩
      (fun _ hb => absurd hb (List.not_mem_nil _)) b hmem
  | some err =>
    rcases h with h | h
    · rw [hres] at h
      simp at h
    · rw [ParseConfig_fail n err hres]
      intro b hb
      rw [h] at hb
      exact absurd hb (List.not_mem_nil _)

theorem parseUint_ok_digits (digits : List Char) (n v : Nat)
    (h : strconv.parseUint digits n = .ok v) : ∀ c ∈ digits, '0' ≤ c ∧ c ≤ '9' := by
  induction digits generalizing n with
  | nil => exact fun _ hc => absurd hc (List.not_mem_nil _)
  | cons d ds ih =>
    unfold strconv.parseUint at h
    split_ifs at h with hd hr
    intro c hc
    rcases List.mem_cons.mp hc with he | hm
    · rw [he]; exact hd
    · exact ih _ h c hm

/-- A text `Atoi` accepts is an optional sign followed by decimal digits, at
least one. -/
theorem Atoi_ok_decimal (s : String) (v : Int) (h : strconv.Atoi s = .ok v) :
    ∃ sign digits : List Char, s.data = sign ++ digits ∧
      (sign = [] ∨ sign = ['+'] ∨ sign = ['-']) ∧ digits ≠ [] ∧
      ∀ c ∈ digits, '0' ≤ c ∧ c ≤ '9' := by
  unfold strconv.Atoi at h
  split at h
  · simp at h
  · rename_i c cs hdata
    simp only at h
    by_cases hsign : c = '-' ∨ c = '+'
    · simp only [if_pos hsign] at h
      by_cases hempty : cs.isEmpty = true
      · simp [hempty] at h
      · simp only [hempty] at h
        cases hp : strconv.parseUint cs 0 with
        | error e => simp [hp] at h
        | ok un =>
          refine ⟨[c], cs, by rw [hdata]; rfl, ?_, ?_, parseUint_ok_digits _ _ _ hp⟩
          · rcases hsign with hs | hs
            · exact Or.inr (Or.inr (by rw [hs]))
            · exact Or.inr (Or.inl (by rw [hs]))
          · intro he
            exact hempty (by rw [he]; rfl)
    · simp only [if_neg hsign] at h
      cases hp : strconv.parseUint (c :: cs) 0 with
      | error e => simp [hp] at h
      | ok un =>
        exact ⟨[], c :: cs, by rw [hdata]; rfl, Or.inl rfl, List.cons_ne_nil _ _,
          parseUint_ok_digits _ _ _ hp⟩

/-- C8: after `ParseConfig`, when it returned `nil` or started from a receiver
without blocks (as in every run of the program), no server name of a block of
the receiver is empty, "on", "_", "localhost" or a member of the ignore list. -/
theorem ParseConfig_names_admissible (n : NginxEct)
    (h : (ParseConfig n).2 = none ∨ n.ServerBlocks = []) :
    ∀ sb ∈ (ParseConfig n).1.ServerBlocks, ∀ name ∈ sb.ServerName,
      name ≠ "" ∧ name ≠ "on" ∧ name ≠ "_" ∧ name ≠ "localhost" ∧
        name ∉ n.IgnoreServers :=
  fun sb hsb => (ParseConfig_blocks_inv n h sb hsb).1

theorem ParseConfig_names_admissible_witness :
    (ParseConfig (withConfig sampleListen ["ignored.example.com"])).2 = none ∧
    (ParseConfig (withConfig sampleListen ["ignored.example.com"])).1.ServerBlocks =
      [⟨["a.example.com"], ["443"]⟩, ⟨["b.example.com"], ["80"]⟩] ∧
    ∀ sb ∈ (ParseConfig (withConfig sampleListen ["ignored.example.com"])).1.ServerBlocks,
      ∀ name ∈ sb.ServerName,
        name ≠ "" ∧ name ≠ "on" ∧ name ≠ "_" ∧ name ≠ "localhost" ∧
          name ∉ (withConfig sampleListen ["ignored.example.com"]).IgnoreServers :=
  ⟨rfl, rfl,
    ParseConfig_names_admissible (withConfig sampleListen ["ignored.example.com"]) (Or.inl rfl)⟩

/-- C9: after `ParseConfig`, when it returned `nil` or started from a receiver
without blocks (as in every run of the program), every port token of a block of
the receiver is accepted by `Atoi` (an optional sign and decimal digits); so for
such a block `statusWorker` never sends the result of its conversion failure
branch: for every name and port of the block the result is the one built from
the probe of the converted port. -/
theorem ParseConfig_ports_numeric (n : NginxEct)
    (h : (ParseConfig n).2 = none ∨ n.ServerBlocks = []) :
    ∀ sb ∈ (ParseConfig n).1.ServerBlocks,
      (∀ port ∈ sb.Port, ∃ intPort : Int, strconv.Atoi port = .ok intPort ∧
        ∃ sign digits : List Char, port.data = sign ++ digits ∧
          (sign = [] ∨ sign = ['+'] ∨ sign = ['-']) ∧ digits ≠ [] ∧
          ∀ c ∈ digits, '0' ≤ c ∧ c ≤ '9') ∧
      ∀ (env : Env) (timeout : Int), ∀ serverName ∈ sb.ServerName, ∀ port ∈ sb.Port,
        ∃ intPort : Int, strconv.Atoi port = .ok intPort ∧
          statusWorkerPair env timeout serverName port =
            match GetServerStatusWithTimeout env serverName intPort timeout with
            | (_, some err) =>
              { ServerName := serverName, Port := intPort, StatusCode := 0,
                StatusMessage := classify err }
            | (stat, none) => stat := by
  intro sb hsb
  have hports := (ParseConfig_blocks_inv n h sb hsb).2
  refine ⟨?_, ?_⟩
  · intro port hport
    obtain ⟨v, hv⟩ := hports port hport
    exact ⟨v, hv, Atoi_ok_decimal port v hv⟩
  · intro env timeout serverName _ port hport
    obtain ⟨v, hv⟩ := hports port hport
    refine ⟨v, hv, ?_⟩
    unfold statusWorkerPair
    rw [hv]

theorem ParseConfig_ports_numeric_witness :
    (ParseConfig (withConfig sampleListen [])).2 = none ∧
    (ParseConfig (withConfig sampleListen [])).1.ServerBlocks =
      [⟨["a.example.com"], ["443"]⟩, ⟨["b.example.com", "ignored.example.com"], ["80"]⟩] ∧
    ∀ sb ∈ (ParseConfig (withConfig sampleListen [])).1.ServerBlocks,
      ∀ port ∈ sb.Port, ∃ intPort : Int, strconv.Atoi port = .ok intPort :=
  ⟨rfl, rfl, fun sb hsb port hport =>
    let ⟨v, hv, _⟩ :=
      (ParseConfig_ports_numeric (withConfig sampleListen []) (Or.inl rfl) sb hsb).1 port hport
    ⟨v, hv⟩⟩

/-- C10: when the port converts and the probe fails with the text `e`, the
result `statusWorker` sends has status code 0 and the message TIMEOUT if `e`
contains "timeout", else CONN_REFUSED if it contains "connection refused",
else NO_HOST if it contains "no such host", else FAILED_TO_VERIFY_CERTIFICATE
if it contains "failed to verify certificate: x509", else UNKNOWN. -/
theorem statusWorkerPair_failure (env : Env) (timeout : Int) (serverName port : String)
    (intPort : Int) (e : String) (hport : strconv.Atoi port = .ok intPort)
    (hfail : (GetServerStatusWithTimeout env serverName intPort timeout).2 = some e) :
    statusWorkerPair env timeout serverName port =
      { ServerName := serverName
        Port := intPort
        StatusCode := 0
        StatusMessage :=
          if strings.Contains e "timeout" then "TIMEOUT"
          else if strings.Contains e "connection refused" then "CONN_REFUSED"
          else if strings.Contains e "no such host" then "NO_HOST"
          else if strings.Contains e "failed to verify certificate: x509" then
            "FAILED_TO_VERIFY_CERTIFICATE"
          else "UNKNOWN" } := by
  unfold statusWorkerPair
  simp only [hport]
  rcases hg : GetServerStatusWithTimeout env serverName intPort timeout with ⟨stat, _ | err⟩
  · rw [hg] at hfail
    simp at hfail
  · rw [hg] at hfail
    simp only [Option.some.injEq] at hfail
    subst hfail
    rfl

theorem statusWorkerPair_failure_witness :
    strconv.Atoi "80" = .ok 80 ∧
    statusWorkerPair
        (failingEnv "Get \"http://timeout.example.com:80\": dial tcp 10.0.0.1:80: connect: connection refused")
        5000000000 "timeout.example.com" "80" =
      { ServerName := "timeout.example.com", Port := 80, StatusCode := 0,
        StatusMessage := "TIMEOUT" } :=
  ⟨rfl, statusWorkerPair_failure
    (failingEnv "Get \"http://timeout.example.com:80\": dial tcp 10.0.0.1:80: connect: connection refused")
    5000000000 "timeout.example.com" "80" 80
    "Get \"http://timeout.example.com:80\": dial tcp 10.0.0.1:80: connect: connection refused"
    rfl rfl⟩

/-! ## Theorems: classification of probe failures -/

theorem statusWorkerPair_fail_eq (env : Env) (timeout : Int) (serverName port : String)
    (intPort : Int) (e : String) (hport : strconv.Atoi port = .ok intPort)
    (hfail : (GetServerStatusWithTimeout env serverName intPort timeout).2 = some e) :
    statusWorkerPair env timeout serverName port =
      { ServerName := serverName, Port := intPort, StatusCode := 0,
        StatusMessage := classify e } := by
  unfold statusWorkerPair
  simp only [hport]
  rcases hg : GetServerStatusWithTimeout env serverName intPort timeout with ⟨stat, _ | err⟩
  · rw [hg] at hfail
    simp at hfail
  · rw [hg] at hfail
    simp only [Option.some.injEq] at hfail
    subst hfail
    rfl

/-- C11 (amended): when the port converts and the probe fails with a text that
contains "connection refused", the result `statusWorker` sends has status code
0 and the message CONN_REFUSED, unless the text also contains "timeout", in
which case the message is TIMEOUT. -/
theorem statusWorkerPair_refused (env : Env) (timeout : Int) (serverName port : String)
    (intPort : Int) (e : String) (hport : strconv.Atoi port = .ok intPort)
    (hfail : (GetServerStatusWithTimeout env serverName intPort timeout).2 = some e)
    (hrefused : strings.Contains e "connection refused" = true) :
    (statusWorkerPair env timeout serverName port).StatusCode = 0 ∧
    (strings.Contains e "timeout" = false →
      statusWorkerPair env timeout serverName port =
        { ServerName := serverName, Port := intPort, StatusCode := 0,
          StatusMessage := "CONN_REFUSED" }) ∧
    (strings.Contains e "timeout" = true →
      statusWorkerPair env timeout serverName port =
        { ServerName := serverName, Port := intPort, StatusCode := 0,
          StatusMessage := "TIMEOUT" }) := by
  rw [statusWorkerPair_fail_eq env timeout serverName port intPort e hport hfail]
  refine ⟨rfl, ?_, ?_⟩
  · intro hno
    simp [classify, hno, hrefused, StatusMessageConnectionRefused]
  · intro hyes
    simp [classify, hyes, StatusMessageTimeout]

theorem statusWorkerPair_refused_witness :
    strconv.Atoi "443" = .ok 443 ∧
    strings.Contains "Get \"https://a.example.com:443\": dial tcp 10.0.0.1:443: connect: connection refused"
      "connection refused" = true ∧
    statusWorkerPair
        (failingEnv "Get \"https://a.example.com:443\": dial tcp 10.0.0.1:443: connect: connection refused")
        5000000000 "a.example.com" "443" =
      { ServerName := "a.example.com", Port := 443, StatusCode := 0,
        StatusMessage := "CONN_REFUSED" } :=
  ⟨rfl, rfl, (statusWorkerPair_refused
    (failingEnv "Get \"https://a.example.com:443\": dial tcp 10.0.0.1:443: connect: connection refused")
    5000000000 "a.example.com" "443" 443
    "Get \"https://a.example.com:443\": dial tcp 10.0.0.1:443: connect: connection refused"
    rfl rfl rfl).2.1 rfl⟩

/-- C11 (as stated) fails: a probe of `timeout.example.com` that is refused
fails with a text that names the URL, so the text contains "connection refused"
and "timeout", and the message is TIMEOUT, not CONN_REFUSED. -/
theorem statusWorkerPair_refused_counterexample :
    strings.Contains
      "Get \"https://timeout.example.com:443\": dial tcp 10.0.0.1:443: connect: connection refused"
      "connection refused" = true ∧
    (GetServerStatusWithTimeout
      (failingEnv "Get \"https://timeout.example.com:443\": dial tcp 10.0.0.1:443: connect: connection refused")
      "timeout.example.com" 443 5000000000).2 =
      some "Get \"https://timeout.example.com:443\": dial tcp 10.0.0.1:443: connect: connection refused" ∧
    (statusWorkerPair
      (failingEnv "Get \"https://timeout.example.com:443\": dial tcp 10.0.0.1:443: connect: connection refused")
      5000000000 "timeout.example.com" "443").StatusMessage = "TIMEOUT" ∧
    (statusWorkerPair
      (failingEnv "Get \"https://timeout.example.com:443\": dial tcp 10.0.0.1:443: connect: connection refused")
      5000000000 "timeout.example.com" "443").StatusMessage ≠ "CONN_REFUSED" :=
  ⟨rfl, rfl, rfl, by decide⟩

end nginx

/-! ## Theorems: CleanSlice -/

namespace utils

theorem CleanSlice_concat (xs : List String) (x : String) :
    CleanSlice (xs ++ [x]) =
      if x = "" then CleanSlice xs
      else if x ∈ CleanSlice xs then CleanSlice xs
      else CleanSlice xs ++ [x] := by
  have key : ∀ c : List String,
      (if x = "" then c else if (!Contains c x) = true then c ++ [x] else c) =
        if x = "" then c else if x ∈ c then c else c ++ [x] := by
    intro c
    by_cases hx : x = ""
    · simp [hx]
    · by_cases hm : x ∈ c
      · simp [hx, hm, (Contains_iff c x).mpr hm]
      · simp [hx, hm, (Contains_eq_false_iff c x).mpr hm]
  unfold CleanSlice
  rw [List.foldl_append, List.foldl_cons, List.foldl_nil]
  exact key _

/-- What `CleanSlice` returns: no empty string, no repetition, the non-empty
members of the input, in the order of their first occurrence in the input. -/
theorem CleanSlice_spec (xs : List String) :
    "" ∉ CleanSlice xs ∧ (CleanSlice xs).Nodup ∧
    (∀ s, s ∈ CleanSlice xs ↔ s ∈ xs ∧ s ≠ "") ∧
    (CleanSlice xs).Pairwise (fun a b => xs.indexOf a < xs.indexOf b) := by
  induction xs using List.reverseRecOn with
  | nil => simp [CleanSlice]
  | append_singleton l x ih =>
    obtain ⟨hne, hnd, hmem, hpw⟩ := ih
    have hshift : ∀ a ∈ CleanSlice l, List.indexOf a (l ++ [x]) = List.indexOf a l :=
      fun a ha => List.indexOf_append_of_mem ((hmem a).mp ha).1
    have hpw2 : (CleanSlice l).Pairwise
        (fun a b => (l ++ [x]).indexOf a < (l ++ [x]).indexOf b) := by
      refine hpw.imp_of_mem ?_
      intro a b ha hb hab
      rw [hshift a ha, hshift b hb]
      exact hab
    rw [CleanSlice_concat]
    by_cases hx : x = ""
    · rw [if_pos hx]
      refine ⟨hne, hnd, ?_, hpw2⟩
      intro s
      rw [hmem, List.mem_append, List.mem_singleton]
      constructor
      · rintro ⟨h1, h2⟩
        exact ⟨Or.inl h1, h2⟩
      · rintro ⟨h1 | h1, h2⟩
        · exact ⟨h1, h2⟩
        · exact absurd (h1.trans hx) h2
    · rw [if_neg hx]
      by_cases hm : x ∈ CleanSlice l
      · rw [if_pos hm]
        refine ⟨hne, hnd, ?_, hpw2⟩
        intro s
        rw [hmem, List.mem_append, List.mem_singleton]
        constructor
        · rintro ⟨h1, h2⟩
          exact ⟨Or.inl h1, h2⟩
        · rintro ⟨h1 | h1, h2⟩
          · exact ⟨h1, h2⟩
          · rw [h1]
            exact (hmem x).mp hm
      · rw [if_neg hm]
        have hxl : x ∉ l := fun h => hm ((hmem x).mpr ⟨h, hx⟩)
        refine ⟨?_, ?_, ?_, ?_⟩
        · intro h
          rcases List.mem_append.mp h with h1 | h1
          · exact hne h1
          · exact hx (List.mem_singleton.mp h1).symm
        · rw [List.nodup_append]
          refine ⟨hnd, List.nodup_singleton x, ?_⟩
          intro a ha hax
          rw [List.mem_singleton] at hax
          exact hm (hax ▸ ha)
        · intro s
          rw [List.mem_append, List.mem_append, hmem, List.mem_singleton]
          constructor
          · rintro (⟨h1, h2⟩ | h1)
            · exact ⟨Or.inl h1, h2⟩
            · exact ⟨Or.inr h1, by rw [h1]; exact hx⟩
          · rintro ⟨h1 | h1, h2⟩
            · exact Or.inl ⟨h1, h2⟩
            · exact Or.inr h1
        · rw [List.pairwise_append]
          refine ⟨hpw2, List.pairwise_singleton _ _, ?_⟩
          intro a ha b hb
          rw [List.mem_singleton] at hb
          rw [hb, hshift a ha, List.indexOf_append_of_not_mem hxl]
          have : List.indexOf a l < l.length := List.indexOf_lt_length.mpr ((hmem a).mp ha).1
          omega

theorem CleanSlice_of_clean (l : List String) (hnd : l.Nodup) (hne : "" ∉ l) :
    CleanSlice l = l := by
  induction l using List.reverseRecOn with
  | nil => rfl
  | append_singleton l x ih =>
    have hnd2 := List.nodup_append.mp hnd
    have hl : CleanSlice l = l := ih hnd2.1 (fun h => hne (List.mem_append_left _ h))
    have hx : x ≠ "" := fun h => hne (List.mem_append_right _ (by rw [h]; simp))
    have hxl : x ∉ l := fun h => hnd2.2.2 h (List.mem_singleton_self x)
    rw [CleanSlice_concat, if_neg hx, hl, if_neg hxl]

/-- C20: `CleanSlice xs` has no empty string and no repetition, has exactly the
non-empty members of `xs`, in the order of their first occurrence in `xs`; it
is idempotent, and `Contains (CleanSlice xs) s` holds exactly when `s` is not
empty and `Contains xs s` holds. -/
theorem CleanSlice_correct (xs : List String) :
    "" ∉ CleanSlice xs ∧ (CleanSlice xs).Nodup ∧
    (∀ s, s ∈ CleanSlice xs ↔ s ∈ xs ∧ s ≠ "") ∧
    (CleanSlice xs).Pairwise (fun a b => xs.indexOf a < xs.indexOf b) ∧
    CleanSlice (CleanSlice xs) = CleanSlice xs ∧
    (∀ s, Contains (CleanSlice xs) s = true ↔ s ≠ "" ∧ Contains xs s = true) := by
  obtain ⟨hne, hnd, hmem, hpw⟩ := CleanSlice_spec xs
  refine ⟨hne, hnd, hmem, hpw, CleanSlice_of_clean _ hnd hne, ?_⟩
  intro s
  rw [Contains_iff, Contains_iff, hmem]
  exact ⟨fun h => ⟨h.2, h.1⟩, fun h => ⟨h.2, h.1⟩⟩

end utils

namespace nginx

/-! ## Theorems: probing -/

theorem statusWorkerPair_pair (env : Env) (timeout : Int) (serverName port : String) :
    pairOf (statusWorkerPair env timeout serverName port) = (serverName, portNumber port) := by
  unfold statusWorkerPair portNumber pairOf
  cases hp : strconv.Atoi port with
  | error e => rfl
  | ok intPort =>
    simp only
    unfold GetServerStatusWithTimeout
    simp only
    cases env.HttpGet (protoForPort intPort ++ "://" ++ serverName ++ ":" ++ toString intPort)
      timeout <;> rfl

theorem statusWorker_pairs (env : Env) (timeout : Int) (sb : ServerBlock) :
    (statusWorker env timeout sb).map pairOf =
      sb.ServerName.flatMap fun name => sb.Port.map fun port => (name, portNumber port) := by
  unfold statusWorker
  induction sb.ServerName with
  | nil => rfl
  | cons name rest ih =>
    rw [List.flatMap_cons, List.flatMap_cons, List.map_append, ih, List.map_map]
    congr 1
    apply List.map_congr_left
    intro port _
    exact statusWorkerPair_pair env timeout name port

theorem flatMap_statusWorker_pairs (env : Env) (timeout : Int) (blocks : List ServerBlock) :
    (blocks.flatMap (statusWorker env timeout)).map pairOf = expandPairs blocks := by
  unfold expandPairs
  induction blocks with
  | nil => rfl
  | cons g rest ih =>
    rw [List.flatMap_cons, List.flatMap_cons, List.map_append, ih, statusWorker_pairs]

theorem statusWorker_length (env : Env) (timeout : Int) (sb : ServerBlock) :
    (statusWorker env timeout sb).length = sb.ServerName.length * sb.Port.length := by
  unfold statusWorker
  induction sb.ServerName with
  | nil => simp
  | cons name rest ih =>
    rw [List.flatMap_cons, List.length_append, ih, List.length_map, List.length_cons]
    ring

theorem foldl_jobs (blocks : List ServerBlock) (total : Nat) :
    blocks.foldl (fun total sb => total + sb.ServerName.length * sb.Port.length) total =
      total + (blocks.map fun sb => sb.ServerName.length * sb.Port.length).sum := by
  induction blocks generalizing total with
  | nil => simp
  | cons g rest ih =>
    rw [List.foldl_cons, ih, List.map_cons, List.sum_cons]
    omega

theorem totalJobs_eq_sum (n : NginxEct) :
    totalJobs n = (n.ServerBlocks.map fun sb => sb.ServerName.length * sb.Port.length).sum := by
  unfold totalJobs
  rw [foldl_jobs, Nat.zero_add]

theorem flatMap_statusWorker_length (env : Env) (timeout : Int) (blocks : List ServerBlock) :
    (blocks.flatMap (statusWorker env timeout)).length =
      (blocks.map fun sb => sb.ServerName.length * sb.Port.length).sum := by
  induction blocks with
  | nil => rfl
  | cons g rest ih =>
    rw [List.flatMap_cons, List.length_append, ih, statusWorker_length, List.map_cons,
      List.sum_cons]

/-- With a worker, `IndexNginx` returns `nil` and appends the results of every
block, in order: the `totalJobs` results it receives are all the results sent. -/
theorem IndexNginx_eq (env : Env) (n : NginxEct) (hc : 1 ≤ n.Concurrency) :
    IndexNginx env n =
      some ({ n with ServerStatuses :=
          n.ServerStatuses ++ n.ServerBlocks.flatMap (statusWorker env n.Timeout) }, none) := by
  unfold IndexNginx
  have hcond : n.Concurrency ≥ 1 ∨ n.ServerBlocks = [] := Or.inl hc
  rw [if_pos hcond]
  have hlen : (n.ServerBlocks.flatMap (statusWorker env n.Timeout)).length ≤ totalJobs n := by
    rw [flatMap_statusWorker_length, totalJobs_eq_sum]
  rw [List.take_of_length_le hlen]

theorem scanLine_nonempty (ign : List String) (st : ScanState) (line : String)
    (hkept : ∀ b ∈ st.serverBlocks, b.ServerName ≠ [] ∧ b.Port ≠ []) :
    ∀ b ∈ (scanLine ign st line).serverBlocks, b.ServerName ≠ [] ∧ b.Port ≠ [] := by
  simp only [scanLine]
  split_ifs with hfinal
  · intro b hb
    rcases List.mem_append.mp hb with hm | hm
    · exact hkept b hm
    · rw [List.mem_singleton] at hm
      rw [hm]
      exact ⟨List.ne_nil_of_length_pos hfinal.2.1, List.ne_nil_of_length_pos hfinal.2.2⟩
  · exact hkept

theorem foldl_scanLine_nonempty (ign : List String) (lines : List String) (st : ScanState)
    (hkept : ∀ b ∈ st.serverBlocks, b.ServerName ≠ [] ∧ b.Port ≠ []) :
    ∀ b ∈ (lines.foldl (scanLine ign) st).serverBlocks, b.ServerName ≠ [] ∧ b.Port ≠ [] := by
  induction lines generalizing st with
  | nil => exact hkept
  | cons line rest ih =>
    rw [List.foldl_cons]
    exact ih _ (scanLine_nonempty ign st line hkept)

/-- Every block in the receiver after `ParseConfig`, when it returned `nil` or
started without blocks, has a name and a port. -/
theorem ParseConfig_blocks_nonempty (n : NginxEct)
    (h : (ParseConfig n).2 = none ∨ n.ServerBlocks = []) :
    ∀ b ∈ (ParseConfig n).1.ServerBlocks, b.ServerName ≠ [] ∧ b.Port ≠ [] := by
  cases hres : (ParseConfig n).2 with
  | none =>
    rw [ParseConfig_ok n hres]
    intro b hb
    have hmem := ((foldl_addUnique_spec _).2.1 b).mp hb
    exact foldl_scanLine_nonempty n.IgnoreServers _ _
      (fun _ hb => absurd hb (List.not_mem_nil _)) b hmem
  | some err =>
    rcases h with h | h
    · rw [hres] at h
      simp at h
    · rw [ParseConfig_fail n err hres]
      intro b hb
      rw [h] at hb
      exact absurd hb (List.not_mem_nil _)

theorem length_le_jobs (blocks : List ServerBlock)
    (h : ∀ b ∈ blocks, b.ServerName ≠ [] ∧ b.Port ≠ []) :
    blocks.length ≤ (blocks.map fun sb => sb.ServerName.length * sb.Port.length).sum := by
  induction blocks with
  | nil => simp
  | cons g rest ih =>
    have hg := h g (List.mem_cons_self _ _)
    have hpos : 0 < g.ServerName.length * g.Port.length :=
      Nat.mul_pos (List.length_pos.mpr hg.1) (List.length_pos.mpr hg.2)
    have hrest := ih (fun b hb => h b (List.mem_cons_of_mem _ hb))
    rw [List.length_cons, List.map_cons, List.sum_cons]
    omega

theorem FilterSupportedProtocols_blocks (n : NginxEct) :
    (FilterSupportedProtocols n).1.ServerBlocks =
      n.ServerBlocks.filter (fun sb => decide ("80" ∈ sb.Port ∨ "443" ∈ sb.Port)) := by
  simp [FilterSupportedProtocols, foldl_addSupported]

/-- C19: after `ParseConfig` (when it returned `nil` or started from a receiver
without blocks, as in every run of the program) every block has at least one
server name and at least one port; so the number of blocks, before and after
`FilterSupportedProtocols`, is at most `totalJobs`, the capacity of the job
queue `IndexNginx` fills with one entry per block. -/
theorem ParseConfig_blocks_le_totalJobs (n : NginxEct)
    (h : (ParseConfig n).2 = none ∨ n.ServerBlocks = []) :
    (∀ sb ∈ (ParseConfig n).1.ServerBlocks,
      1 ≤ sb.ServerName.length ∧ 1 ≤ sb.Port.length) ∧
    (ParseConfig n).1.ServerBlocks.length ≤ totalJobs (ParseConfig n).1 ∧
    (FilterSupportedProtocols (ParseConfig n).1).1.ServerBlocks.length ≤
      totalJobs (FilterSupportedProtocols (ParseConfig n).1).1 := by
  have hne := ParseConfig_blocks_nonempty n h
  refine ⟨?_, ?_, ?_⟩
  · intro sb hsb
    exact ⟨List.length_pos.mpr (hne sb hsb).1, List.length_pos.mpr (hne sb hsb).2⟩
  · rw [totalJobs_eq_sum]
    exact length_le_jobs _ hne
  · rw [totalJobs_eq_sum]
    apply length_le_jobs
    intro b hb
    rw [FilterSupportedProtocols_blocks] at hb
    exact hne b (List.mem_filter.mp hb).1

theorem ParseConfig_blocks_le_totalJobs_witness :
    ((ParseConfig (withConfig (sampleBlock ++ sampleListen) [])).2 = none ∨
      (withConfig (sampleBlock ++ sampleListen) []).ServerBlocks = []) ∧
    (ParseConfig (withConfig (sampleBlock ++ sampleListen) [])).1.ServerBlocks.length = 4 ∧
    totalJobs (ParseConfig (withConfig (sampleBlock ++ sampleListen) [])).1 = 6 ∧
    (FilterSupportedProtocols
      (ParseConfig (withConfig (sampleBlock ++ sampleListen) [])).1).1.ServerBlocks.length ≤
      totalJobs (FilterSupportedProtocols
        (ParseConfig (withConfig (sampleBlock ++ sampleListen) [])).1).1 :=
  ⟨Or.inl rfl, rfl, rfl,
    (ParseConfig_blocks_le_totalJobs (withConfig (sampleBlock ++ sampleListen) [])
      (Or.inl rfl)).2.2⟩

theorem coe_flatMap_sum {α β : Type} (l : List α) (f : α → List β) :
    (↑(l.flatMap f) : Multiset β) = (l.map fun a => (↑(f a) : Multiset β)).sum := by
  induction l with
  | nil => rfl
  | cons a rest ih =>
    rw [List.flatMap_cons, List.map_cons, List.sum_cons, ← ih, Multiset.coe_add]

theorem coe_expandPairs (blocks : List ServerBlock) :
    (↑(expandPairs blocks) : Multiset (String × Int)) =
      (blocks.map fun g =>
        (↑g.ServerName : Multiset String) ×ˢ (↑(g.Port.map portNumber) : Multiset Int)).sum := by
  unfold expandPairs
  rw [coe_flatMap_sum]
  congr 1
  apply List.map_congr_left
  intro g _
  rw [Multiset.coe_product]
  congr 1
  show _ = List.product g.ServerName (g.Port.map portNumber)
  unfold List.product
  congr 1
  funext name
  rw [List.map_map]
  rfl

/-- C14: with a worker and numeric port tokens, `IndexNginx` returns `nil` and
appends exactly `totalJobs` results, the sum over the groups of the number of
names times the number of ports; the (ServerName, Port) pairs of these results
are, as a list in the order of one worker and so as a multiset, the cartesian
products of the names and the port numbers of the groups; every port number is
the value of its token. -/
theorem IndexNginx_complete (env : Env) (n : NginxEct) (hc : 1 ≤ n.Concurrency)
    (hnum : ∀ g ∈ n.ServerBlocks, ∀ port ∈ g.Port, ∃ v, strconv.Atoi port = .ok v) :
    ∃ results : List ServerStatus,
      IndexNginx env n =
        some ({ n with ServerStatuses := n.ServerStatuses ++ results }, none) ∧
      results.length = totalJobs n ∧
      totalJobs n = (n.ServerBlocks.map fun g => g.ServerName.length * g.Port.length).sum ∧
      results.map pairOf = expandPairs n.ServerBlocks ∧
      (↑(results.map pairOf) : Multiset (String × Int)) =
        (n.ServerBlocks.map fun g =>
          (↑g.ServerName : Multiset String) ×ˢ
            (↑(g.Port.map portNumber) : Multiset Int)).sum ∧
      ∀ g ∈ n.ServerBlocks, ∀ port ∈ g.Port, strconv.Atoi port = .ok (portNumber port) := by
  refine ⟨n.ServerBlocks.flatMap (statusWorker env n.Timeout), IndexNginx_eq env n hc, ?_,
    totalJobs_eq_sum n, flatMap_statusWorker_pairs _ _ _, ?_, ?_⟩
  · rw [flatMap_statusWorker_length, totalJobs_eq_sum]
  · rw [flatMap_statusWorker_pairs, coe_expandPairs]
  · intro g hg port hport
    obtain ⟨v, hv⟩ := hnum g hg port hport
    unfold portNumber
    rw [hv]

theorem IndexNginx_complete_witness :
    (1 : Int) ≤ (ParseConfig { sampleReceiver true with ConfigStr := sampleListen }).1.Concurrency ∧
    IndexNginx (sampleEnv sampleListen "5d41" [] 200)
        (ParseConfig { sampleReceiver true with ConfigStr := sampleListen }).1 =
      some ({ (ParseConfig { sampleReceiver true with ConfigStr := sampleListen }).1 with
        ServerStatuses := [⟨"a.example.com", 443, 200, "OK"⟩, ⟨"b.example.com", 80, 200, "OK"⟩,
          ⟨"ignored.example.com", 80, 200, "OK"⟩] }, none) ∧
    ∃ results : List ServerStatus,
      IndexNginx (sampleEnv sampleListen "5d41" [] 200)
          (ParseConfig { sampleReceiver true with ConfigStr := sampleListen }).1 =
        some ({ (ParseConfig { sampleReceiver true with ConfigStr := sampleListen }).1 with
          ServerStatuses :=
            (ParseConfig { sampleReceiver true with ConfigStr := sampleListen }).1.ServerStatuses
              ++ results }, none) ∧
      results.length =
        totalJobs (ParseConfig { sampleReceiver true with ConfigStr := sampleListen }).1 ∧
      totalJobs (ParseConfig { sampleReceiver true with ConfigStr := sampleListen }).1 =
        ((ParseConfig { sampleReceiver true with ConfigStr := sampleListen }).1.ServerBlocks.map
          fun g => g.ServerName.length * g.Port.length).sum ∧
      results.map pairOf =
        expandPairs (ParseConfig { sampleReceiver true with ConfigStr := sampleListen }).1.ServerBlocks ∧
      (↑(results.map pairOf) : Multiset (String × Int)) =
        ((ParseConfig { sampleReceiver true with ConfigStr := sampleListen }).1.ServerBlocks.map
          fun g => (↑g.ServerName : Multiset String) ×ˢ
            (↑(g.Port.map portNumber) : Multiset Int)).sum ∧
      ∀ g ∈ (ParseConfig { sampleReceiver true with ConfigStr := sampleListen }).1.ServerBlocks,
        ∀ port ∈ g.Port, strconv.Atoi port = .ok (portNumber port) :=
  ⟨by decide, rfl,
    IndexNginx_complete (sampleEnv sampleListen "5d41" [] 200)
      (ParseConfig { sampleReceiver true with ConfigStr := sampleListen }).1 (by decide)
      (fun g hg => (ParseConfig_blocks_inv { sampleReceiver true with ConfigStr := sampleListen }
        (Or.inl rfl) g hg).2)⟩

theorem classify_mem (errText : String) :
    classify errText ∈
      ["TIMEOUT", "CONN_REFUSED", "NO_HOST", "FAILED_TO_VERIFY_CERTIFICATE", "UNKNOWN"] := by
  unfold classify
  split_ifs <;>
    simp [StatusMessageTimeout, StatusMessageConnectionRefused, StatusMessageNoSuchHost,
      StatusMessageFailedToVerifyCertificate, StatusMessageUnknown]

/-- The two outcomes of `statusWorker` for a port token that converts. -/
theorem statusWorkerPair_cases (env : Env) (timeout : Int) (serverName port : String)
    (intPort : Int) (hport : strconv.Atoi port = .ok intPort) :
    (∃ code, env.HttpGet
          (protoForPort intPort ++ "://" ++ serverName ++ ":" ++ toString intPort) timeout =
        .ok code ∧
      statusWorkerPair env timeout serverName port = ⟨serverName, intPort, code, "OK"⟩) ∨
    (∃ errText, env.HttpGet
          (protoForPort intPort ++ "://" ++ serverName ++ ":" ++ toString intPort) timeout =
        .error errText ∧
      statusWorkerPair env timeout serverName port =
        ⟨serverName, intPort, 0, classify errText⟩) := by
  unfold statusWorkerPair
  simp only [hport]
  unfold GetServerStatusWithTimeout
  simp only
  cases hget : env.HttpGet
      (protoForPort intPort ++ "://" ++ serverName ++ ":" ++ toString intPort) timeout with
  | error errText => exact Or.inr ⟨errText, rfl, rfl⟩
  | ok code => exact Or.inl ⟨code, rfl, rfl⟩

/-- C17: for a block of the receiver after `ParseConfig` (when it returned `nil`
or started without blocks), every result `statusWorker` sends is the result of
one name and one port token of the block, whose port converts; it carries one
of the seven messages, which are pairwise different; its message is OK exactly
when the GET of that name and port succeeded, and then its status code is the
one received; and its status code is 0 when its message is not OK. Conversely
the result of every name and port of the block is sent. -/
theorem statusWorker_messages (n : NginxEct)
    (h : (ParseConfig n).2 = none ∨ n.ServerBlocks = []) (env : Env) (timeout : Int) :
    ["OK", "NO_HOST", "CONN_REFUSED", "CONN_RESET", "TIMEOUT", "FAILED_TO_VERIFY_CERTIFICATE",
      "UNKNOWN"].Nodup ∧
    ∀ sb ∈ (ParseConfig n).1.ServerBlocks,
      (∀ r ∈ statusWorker env timeout sb,
        r.StatusMessage ∈ ["OK", "NO_HOST", "CONN_REFUSED", "CONN_RESET", "TIMEOUT",
          "FAILED_TO_VERIFY_CERTIFICATE", "UNKNOWN"] ∧
        (r.StatusMessage ≠ "OK" → r.StatusCode = 0) ∧
        ∃ serverName ∈ sb.ServerName, ∃ port ∈ sb.Port, ∃ intPort : Int,
          strconv.Atoi port = .ok intPort ∧
          r.ServerName = serverName ∧ r.Port = intPort ∧
          (r.StatusMessage = "OK" ↔
            ∃ code, env.HttpGet
              (protoForPort intPort ++ "://" ++ serverName ++ ":" ++ toString intPort)
              timeout = .ok code) ∧
          ∀ code, env.HttpGet
              (protoForPort intPort ++ "://" ++ serverName ++ ":" ++ toString intPort)
              timeout = .ok code →
            r.StatusCode = code ∧ r.StatusMessage = "OK") ∧
      ∀ serverName ∈ sb.ServerName, ∀ port ∈ sb.Port,
        statusWorkerPair env timeout serverName port ∈ statusWorker env timeout sb ∧
        ∃ intPort : Int, strconv.Atoi port = .ok intPort ∧
          ((statusWorkerPair env timeout serverName port).StatusMessage = "OK" ↔
            ∃ code, env.HttpGet
              (protoForPort intPort ++ "://" ++ serverName ++ ":" ++ toString intPort)
              timeout = .ok code) ∧
          ∀ code, env.HttpGet
              (protoForPort intPort ++ "://" ++ serverName ++ ":" ++ toString intPort)
              timeout = .ok code →
            statusWorkerPair env timeout serverName port = ⟨serverName, intPort, code, "OK"⟩ := by
  refine ⟨by decide, ?_⟩
  intro sb hsb
  have hports := (ParseConfig_blocks_inv n h sb hsb).2
  have hnot : ∀ e : String, classify e ≠ "OK" := by
    intro e he
    have hm := classify_mem e
    rw [he] at hm
    revert hm
    decide
  have hpair : ∀ (serverName port : String) (v : Int), strconv.Atoi port = .ok v →
      ((statusWorkerPair env timeout serverName port).StatusMessage = "OK" ↔
        ∃ code, env.HttpGet
          (protoForPort v ++ "://" ++ serverName ++ ":" ++ toString v) timeout = .ok code) ∧
      ∀ code, env.HttpGet
          (protoForPort v ++ "://" ++ serverName ++ ":" ++ toString v) timeout = .ok code →
        statusWorkerPair env timeout serverName port = ⟨serverName, v, code, "OK"⟩ := by
    intro serverName port v hv
    rcases statusWorkerPair_cases env timeout serverName port v hv with
      ⟨code, hget, heq⟩ | ⟨errText, hget, heq⟩
    · refine ⟨?_, ?_⟩
      · rw [heq]
        exact ⟨fun _ => ⟨code, hget⟩, fun _ => rfl⟩
      · intro code2 hc
        rw [hget] at hc
        simp only [Except.ok.injEq] at hc
        rw [heq, hc]
    · refine ⟨?_, ?_⟩
      · rw [heq]
        constructor
        · intro hm
          exact absurd hm (hnot errText)
        · rintro ⟨code, hc⟩
          rw [hget] at hc
          simp at hc
      · intro code hc
        rw [hget] at hc
        simp at hc
  refine ⟨?_, ?_⟩
  · intro r hr
    unfold statusWorker at hr
    obtain ⟨serverName, hname, hr2⟩ := List.mem_flatMap.mp hr
    obtain ⟨port, hport, rfl⟩ := List.mem_map.mp hr2
    obtain ⟨v, hv⟩ := hports port hport
    have hp := hpair serverName port v hv
    rcases statusWorkerPair_cases env timeout serverName port v hv with
      ⟨code, _, heq⟩ | ⟨errText, _, heq⟩
    · refine ⟨?_, ?_, serverName, hname, port, hport, v, hv, ?_, ?_, hp.1, ?_⟩
      · rw [heq]
        simp
      · rw [heq]
        exact fun hne => absurd rfl hne
      · rw [heq]
      · rw [heq]
      · intro code2 hc
        rw [hp.2 code2 hc]
        exact ⟨rfl, rfl⟩
    · refine ⟨?_, ?_, serverName, hname, port, hport, v, hv, ?_, ?_, hp.1, ?_⟩
      · rw [heq]
        have hm := classify_mem errText
        simp only [List.mem_cons, List.mem_singleton, List.not_mem_nil, or_false] at hm ⊢
        rcases hm with hm | hm | hm | hm | hm <;> simp [hm]
      · rw [heq]
        exact fun _ => rfl
      · rw [heq]
      · rw [heq]
      · intro code2 hc
        rw [hp.2 code2 hc]
        exact ⟨rfl, rfl⟩
  · intro serverName hname port hport
    obtain ⟨v, hv⟩ := hports port hport
    refine ⟨?_, v, hv, hpair serverName port v hv⟩
    unfold statusWorker
    exact List.mem_flatMap.mpr ⟨serverName, hname, List.mem_map.mpr ⟨port, hport, rfl⟩⟩

theorem statusWorker_messages_witness :
    ((ParseConfig (withConfig sampleListen [])).2 = none ∨
      (withConfig sampleListen []).ServerBlocks = []) ∧
    statusWorker (sampleEnv sampleListen "5d41" [] 301) 5000000000
        ⟨["b.example.com", "ignored.example.com"], ["80"]⟩ =
      [⟨"b.example.com", 80, 301, "OK"⟩, ⟨"ignored.example.com", 80, 301, "OK"⟩] ∧
    statusWorker (failingEnv "dial tcp: lookup a.example.com: no such host") 5000000000
        ⟨["a.example.com"], ["443"]⟩ = [⟨"a.example.com", 443, 0, "NO_HOST"⟩] ∧
    (∀ r ∈ statusWorker (sampleEnv sampleListen "5d41" [] 301) 5000000000
        ⟨["b.example.com", "ignored.example.com"], ["80"]⟩,
      r.StatusMessage ∈ ["OK", "NO_HOST", "CONN_REFUSED", "CONN_RESET", "TIMEOUT",
        "FAILED_TO_VERIFY_CERTIFICATE", "UNKNOWN"] ∧
      (r.StatusMessage ≠ "OK" → r.StatusCode = 0) ∧
      ∃ serverName ∈ ["b.example.com", "ignored.example.com"], ∃ port ∈ ["80"],
        ∃ intPort : Int, strconv.Atoi port = .ok intPort ∧
          r.ServerName = serverName ∧ r.Port = intPort ∧
          (r.StatusMessage = "OK" ↔
            ∃ code, (sampleEnv sampleListen "5d41" [] 301).HttpGet
              (protoForPort intPort ++ "://" ++ serverName ++ ":" ++ toString intPort)
              5000000000 = .ok code) ∧
          ∀ code, (sampleEnv sampleListen "5d41" [] 301).HttpGet
              (protoForPort intPort ++ "://" ++ serverName ++ ":" ++ toString intPort)
              5000000000 = .ok code →
            r.StatusCode = code ∧ r.StatusMessage = "OK") ∧
    ∀ r ∈ statusWorker (failingEnv "dial tcp: lookup a.example.com: no such host") 5000000000
        ⟨["a.example.com"], ["443"]⟩,
      r.StatusMessage ∈ ["OK", "NO_HOST", "CONN_REFUSED", "CONN_RESET", "TIMEOUT",
        "FAILED_TO_VERIFY_CERTIFICATE", "UNKNOWN"] ∧
      (r.StatusMessage ≠ "OK" → r.StatusCode = 0) :=
  ⟨Or.inl rfl, rfl, rfl,
    ((statusWorker_messages (withConfig sampleListen []) (Or.inl rfl)
      (sampleEnv sampleListen "5d41" [] 301) 5000000000).2
      ⟨["b.example.com", "ignored.example.com"], ["80"]⟩ (by decide)).1,
    fun r hr =>
      let ⟨h1, h2, _⟩ := ((statusWorker_messages (withConfig sampleListen []) (Or.inl rfl)
        (failingEnv "dial tcp: lookup a.example.com: no such host") 5000000000).2
        ⟨["a.example.com"], ["443"]⟩ (by decide)).1 r hr
      ⟨h1, h2⟩⟩

/-! ## Theorems: the groups that are probed -/

theorem protoForPort_ne_empty (port : Int) :
    protoForPort port ≠ "" ↔ port = 80 ∨ port = 443 := by
  unfold protoForPort
  by_cases h80 : port = 80
  · simp [h80]
  · by_cases h443 : port = 443
    · simp [h443]
    · simp [h80, h443]

/-- C15 (amended): after `ParseConfig` followed by `FilterSupportedProtocols`
(when `ParseConfig` returned `nil` or started without blocks) every group that
is expanded for probing holds the port token "80" or "443", so `protoForPort`
gives a scheme for at least one of its ports; every port token of the group
converts, and `protoForPort` gives the empty scheme exactly for its ports that
are neither 80 nor 443. -/
theorem parseAndFilter_ports (n : NginxEct)
    (h : (ParseConfig n).2 = none ∨ n.ServerBlocks = []) :
    ∀ sb ∈ (parseAndFilter n).ServerBlocks,
      ("80" ∈ sb.Port ∨ "443" ∈ sb.Port) ∧
      (∃ port ∈ sb.Port, protoForPort (portNumber port) ≠ "") ∧
      ∀ port ∈ sb.Port, ∃ intPort : Int, strconv.Atoi port = .ok intPort ∧
        (protoForPort intPort = "" ↔ ¬ (intPort = 80 ∨ intPort = 443)) := by
  intro sb hsb
  unfold parseAndFilter at hsb
  rw [FilterSupportedProtocols_blocks] at hsb
  obtain ⟨hmem, hsup⟩ := List.mem_filter.mp hsb
  have hsup2 : "80" ∈ sb.Port ∨ "443" ∈ sb.Port := by simpa using hsup
  refine ⟨hsup2, ?_, ?_⟩
  · rcases hsup2 with h80 | h443
    · exact ⟨"80", h80, by decide⟩
    · exact ⟨"443", h443, by decide⟩
  · intro port hport
    obtain ⟨v, hv⟩ := (ParseConfig_blocks_inv n h sb hmem).2 port hport
    refine ⟨v, hv, ?_⟩
    rw [← protoForPort_ne_empty]
    exact ⟨fun he hne => hne he, fun hn => by_contra hn⟩

theorem parseAndFilter_ports_witness :
    ((ParseConfig (withConfig sampleMixedPorts [])).2 = none ∨
      (withConfig sampleMixedPorts []).ServerBlocks = []) ∧
    (parseAndFilter (withConfig sampleMixedPorts [])).ServerBlocks =
      [⟨["a.example.com"], ["80", "8080"]⟩] ∧
    ∀ sb ∈ (parseAndFilter (withConfig sampleMixedPorts [])).ServerBlocks,
      "80" ∈ sb.Port ∨ "443" ∈ sb.Port :=
  ⟨Or.inl rfl, rfl, fun sb hsb =>
    (parseAndFilter_ports (withConfig sampleMixedPorts []) (Or.inl rfl) sb hsb).1⟩

/-- C15 (as stated) fails: a block that listens on 80 and on 8080 passes
`FilterSupportedProtocols` whole, the pair with port 8080 is expanded, and it
is probed with the empty scheme. -/
theorem parseAndFilter_ports_counterexample :
    (parseAndFilter (withConfig sampleMixedPorts [])).ServerBlocks =
      [⟨["a.example.com"], ["80", "8080"]⟩] ∧
    expandPairs (parseAndFilter (withConfig sampleMixedPorts [])).ServerBlocks =
      [("a.example.com", 80), ("a.example.com", 8080)] ∧
    protoForPort 8080 = "" ∧
    statusWorker echoEnv 5000000000 ⟨["a.example.com"], ["80", "8080"]⟩ =
      [⟨"a.example.com", 80, 0, "UNKNOWN"⟩, ⟨"a.example.com", 8080, 0, "UNKNOWN"⟩] ∧
    (GetServerStatusWithTimeout echoEnv "a.example.com" 8080 5000000000).2 =
      some "://a.example.com:8080" :=
  ⟨rfl, rfl, rfl, rfl, rfl⟩

theorem ParseConfig_concurrency (n : NginxEct) :
    (ParseConfig n).1.Concurrency = n.Concurrency := by
  rw [ParseConfig_eq]
  cases (bufio.Scan n.ConfigStr).2 <;> rfl

theorem parseAndFilter_nodup (n : NginxEct) (h : (ParseConfig n).2 = none) :
    (parseAndFilter n).ServerBlocks.Nodup := by
  unfold parseAndFilter
  rw [FilterSupportedProtocols_blocks]
  apply List.Nodup.filter
  rw [ParseConfig_ok n h]
  exact (foldl_addUnique_spec _).1

theorem groupPairs_eq_product (g : ServerBlock) :
    (g.ServerName.flatMap fun name => g.Port.map fun port => (name, portNumber port)) =
      List.product g.ServerName (g.Port.map portNumber) := by
  unfold List.product
  congr 1
  funext name
  rw [List.map_map]
  rfl

/-- The expansion has no repeated pair when no group repeats a name or a port
number and no two groups share a pair. -/
theorem expandPairs_nodup (blocks : List ServerBlock)
    (hgroups : ∀ g ∈ blocks, g.ServerName.Nodup ∧ (g.Port.map portNumber).Nodup)
    (hshare : blocks.Pairwise fun g g' =>
      ∀ name ∈ g.ServerName, ∀ port ∈ g.Port,
        ¬ (name ∈ g'.ServerName ∧ portNumber port ∈ g'.Port.map portNumber)) :
    (expandPairs blocks).Nodup := by
  unfold expandPairs
  rw [List.nodup_flatMap]
  refine ⟨?_, ?_⟩
  · intro g hg
    rw [groupPairs_eq_product]
    exact List.Nodup.product (hgroups g hg).1 (hgroups g hg).2
  · refine hshare.imp ?_
    intro g g' hgg
    show List.Disjoint
      (g.ServerName.flatMap fun name => g.Port.map fun port => (name, portNumber port))
      (g'.ServerName.flatMap fun name => g'.Port.map fun port => (name, portNumber port))
    rw [groupPairs_eq_product, groupPairs_eq_product]
    intro pair h1 h2
    obtain ⟨name, value⟩ := pair
    have h1' := List.mem_product.mp h1
    have h2' := List.mem_product.mp h2
    obtain ⟨port, hport, hval⟩ := List.mem_map.mp h1'.2
    refine hgg name h1'.1 port hport ⟨h2'.1, ?_⟩
    rw [hval]
    exact h2'.2

/-- C16 (amended): when `ParseConfig` returns `nil`, the extracted and filtered
groups are pairwise different as wholes; with a worker, the probe run over them
returns `totalJobs` results, one per name and port token of each group, and the
(ServerName, Port) pairs of these results are pairwise distinct whenever no
group repeats a name or a port number and no two groups share a pair. -/
theorem parseAndFilter_probe_pairs (env : Env) (n : NginxEct)
    (h : (ParseConfig n).2 = none) (hc : 1 ≤ n.Concurrency) :
    (parseAndFilter n).ServerBlocks.Nodup ∧
    ∃ results : List ServerStatus,
      IndexNginx env (parseAndFilter n) =
        some ({ parseAndFilter n with
          ServerStatuses := (parseAndFilter n).ServerStatuses ++ results }, none) ∧
      results.length = totalJobs (parseAndFilter n) ∧
      results.map pairOf = expandPairs (parseAndFilter n).ServerBlocks ∧
      ((∀ g ∈ (parseAndFilter n).ServerBlocks,
          g.ServerName.Nodup ∧ (g.Port.map portNumber).Nodup) →
        ((parseAndFilter n).ServerBlocks.Pairwise fun g g' =>
          ∀ name ∈ g.ServerName, ∀ port ∈ g.Port,
            ¬ (name ∈ g'.ServerName ∧ portNumber port ∈ g'.Port.map portNumber)) →
        (results.map pairOf).Nodup) := by
  have hc2 : 1 ≤ (parseAndFilter n).Concurrency := by
    show 1 ≤ (FilterSupportedProtocols (ParseConfig n).1).1.Concurrency
    unfold FilterSupportedProtocols
    simp only
    rw [ParseConfig_concurrency]
    exact hc
  refine ⟨parseAndFilter_nodup n h,
    (parseAndFilter n).ServerBlocks.flatMap (statusWorker env (parseAndFilter n).Timeout),
    IndexNginx_eq env _ hc2, ?_, flatMap_statusWorker_pairs _ _ _, ?_⟩
  · rw [flatMap_statusWorker_length, totalJobs_eq_sum]
  · intro hgroups hshare
    rw [flatMap_statusWorker_pairs]
    exact expandPairs_nodup _ hgroups hshare

theorem parseAndFilter_probe_pairs_witness :
    (ParseConfig { sampleReceiver true with ConfigStr := sampleListen }).2 = none ∧
    (1 : Int) ≤ ({ sampleReceiver true with ConfigStr := sampleListen } : NginxEct).Concurrency ∧
    (parseAndFilter { sampleReceiver true with ConfigStr := sampleListen }).ServerBlocks =
      [⟨["a.example.com"], ["443"]⟩, ⟨["b.example.com", "ignored.example.com"], ["80"]⟩] ∧
    (parseAndFilter { sampleReceiver true with ConfigStr := sampleListen }).ServerBlocks.Nodup :=
  ⟨rfl, by decide, rfl,
    (parseAndFilter_probe_pairs echoEnv { sampleReceiver true with ConfigStr := sampleListen }
      rfl (by decide)).1⟩

/-- C16 (as stated) fails: a `server_name` directive that repeats a name gives a
group with a repeated name and two results for the same pair; and two groups of
one server block, each without repetition, share the pair of port 80, which is
probed twice. -/
theorem parseAndFilter_probe_pairs_counterexample :
    ((parseAndFilter { sampleReceiver true with ConfigStr := sampleRepeatedName }).ServerBlocks =
        [⟨["a.example.com", "a.example.com"], ["80"]⟩] ∧
      ¬ (["a.example.com", "a.example.com"] : List String).Nodup ∧
      IndexNginx (sampleEnv sampleRepeatedName "5d41" [] 200)
          (parseAndFilter { sampleReceiver true with ConfigStr := sampleRepeatedName }) =
        some ({ parseAndFilter { sampleReceiver true with ConfigStr := sampleRepeatedName } with
          ServerStatuses := [⟨"a.example.com", 80, 200, "OK"⟩,
            ⟨"a.example.com", 80, 200, "OK"⟩] }, none)) ∧
    ((parseAndFilter { sampleReceiver true with ConfigStr := sampleBlock }).ServerBlocks =
        [⟨["example.com"], ["80"]⟩, ⟨["example.com"], ["80", "443"]⟩] ∧
      IndexNginx (sampleEnv sampleBlock "5d41" [] 200)
          (parseAndFilter { sampleReceiver true with ConfigStr := sampleBlock }) =
        some ({ parseAndFilter { sampleReceiver true with ConfigStr := sampleBlock } with
          ServerStatuses := [⟨"example.com", 80, 200, "OK"⟩, ⟨"example.com", 80, 200, "OK"⟩,
            ⟨"example.com", 443, 200, "OK"⟩] }, none) ∧
      ¬ ([("example.com", 80), ("example.com", 80), ("example.com", 443)] :
          List (String × Int)).Nodup) :=
  ⟨⟨rfl, by decide, rfl⟩, ⟨rfl, rfl, by decide⟩⟩

/-! ## Theorems: Diff -/

theorem Diff_eq (env : Env) (n : NginxEct) :
    Diff env n =
      match Init env n with
      | (n1, some err) => some (n1, some err)
      | (n1, none) =>
        match LoadStateFile env n1 with
        | (n2, some err) => some (n2, some err)
        | (n2, none) => diffFrom env (HashConfig env n2).1 := by
  unfold Diff
  rcases Init env n with ⟨n1, _ | e1⟩
  · simp only
    rcases LoadStateFile env n1 with ⟨n2, _ | e2⟩
    · rfl
    · rfl
  · rfl

theorem parseAndFilter_eq (m : NginxEct) :
    parseAndFilter m = { m with ServerBlocks := (parseAndFilter m).ServerBlocks } := by
  unfold parseAndFilter FilterSupportedProtocols
  rw [ParseConfig_eq]
  cases (bufio.Scan m.ConfigStr).2 <;> rfl

theorem Init_ok (env : Env) (n : NginxEct) (cfg : String)
    (hcfg : env.ReadFile n.ConfigFilePath = .ok cfg) (hscan : (bufio.Scan cfg).2 = none) :
    Init env n =
      ({ n with ConfigStr := cfg
                ServerBlocks := (parseAndFilter { n with ConfigStr := cfg }).ServerBlocks },
        none) := by
  unfold Init LoadConfigFile
  rw [hcfg]
  simp only
  have herr : (ParseConfig { n with ConfigStr := cfg }).2 = none := by
    rw [ParseConfig_err]
    exact hscan
  have hpf := parseAndFilter_eq { n with ConfigStr := cfg }
  unfold parseAndFilter at hpf ⊢
  rcases hp : ParseConfig { n with ConfigStr := cfg } with ⟨n2, e2⟩
  rw [hp] at herr hpf
  simp only at herr
  subst herr
  simp only
  rw [Prod.ext_iff]
  exact ⟨hpf, rfl⟩

/-- `Diff` once the configuration text and the baseline are loaded. -/
theorem Diff_loaded (env : Env) (n : NginxEct) (cfg fd : String) (state : State)
    (hcfg : env.ReadFile n.ConfigFilePath = .ok cfg) (hscan : (bufio.Scan cfg).2 = none)
    (hstate : env.ReadFile n.StateFilePath = .ok fd) (hjson : env.Unmarshal fd = .ok state) :
    Diff env n = diffFrom env (atGate env n cfg state) := by
  rw [Diff_eq, Init_ok env n cfg hcfg hscan]
  simp only [LoadStateFile, hstate, hjson]
  rfl

theorem diffFrom_mismatch (env : Env) (m : NginxEct) (hv : m.VerifyHash = true)
    (hne : m.ConfigHash ≠ m.LoadedConfigHash) :
    diffFrom env m = some (m, some "config hash mismatch") := by
  unfold diffFrom
  rw [if_pos ⟨hv, hne⟩]

theorem diffFrom_pass (env : Env) (m : NginxEct)
    (hgate : ¬ (m.VerifyHash = true ∧ m.ConfigHash ≠ m.LoadedConfigHash))
    (hc : 1 ≤ m.Concurrency) :
    diffFrom env m =
      some ((DiffState { m with ServerStatuses :=
          m.ServerStatuses ++ m.ServerBlocks.flatMap (statusWorker env m.Timeout) }).1,
        diffCheck (DiffState { m with ServerStatuses :=
          m.ServerStatuses ++ m.ServerBlocks.flatMap (statusWorker env m.Timeout) }).1) := by
  unfold diffFrom
  rw [if_neg hgate, IndexNginx_eq env m hc]
  rfl

/-- C12: in `Diff` with `VerifyHash` set, when the configuration text and the
baseline are loaded and the digest of the text differs from the fingerprint of
the baseline, `Diff` returns the error "config hash mismatch" with
`ServerStatuses` and `Diffs` as they were, and it does so whatever the HTTP
client would answer: no probe takes part in the outcome. -/
theorem Diff_hash_mismatch (env : Env) (n : NginxEct) (cfg fd : String) (state : State)
    (hcfg : env.ReadFile n.ConfigFilePath = .ok cfg) (hscan : (bufio.Scan cfg).2 = none)
    (hstate : env.ReadFile n.StateFilePath = .ok fd) (hjson : env.Unmarshal fd = .ok state)
    (hverify : n.VerifyHash = true) (hne : env.Sum256Hex cfg ≠ state.ConfigHash) :
    Diff env n = some (atGate env n cfg state, some "config hash mismatch") ∧
    (atGate env n cfg state).ServerStatuses = n.ServerStatuses ∧
    (atGate env n cfg state).Diffs = n.Diffs ∧
    ∀ httpGet : String → Int → Except String Int,
      Diff { env with HttpGet := httpGet } n =
        some (atGate env n cfg state, some "config hash mismatch") := by
  refine ⟨?_, rfl, rfl, ?_⟩
  · rw [Diff_loaded env n cfg fd state hcfg hscan hstate hjson]
    exact diffFrom_mismatch env _ hverify hne
  · intro httpGet
    rw [Diff_loaded { env with HttpGet := httpGet } n cfg fd state hcfg hscan hstate hjson]
    exact diffFrom_mismatch _ _ hverify hne

theorem Diff_hash_mismatch_witness :
    (sampleEnv sampleListen "0000" [⟨"a.example.com", 443, 200, "OK"⟩] 500).Sum256Hex sampleListen
      ≠ "0000" ∧
    Diff (sampleEnv sampleListen "0000" [⟨"a.example.com", 443, 200, "OK"⟩] 500)
        (sampleReceiver true) =
      some (atGate (sampleEnv sampleListen "0000" [⟨"a.example.com", 443, 200, "OK"⟩] 500)
        (sampleReceiver true) sampleListen
        ⟨"2026-01-01T00:00:00Z", "0000", [⟨"a.example.com", 443, 200, "OK"⟩]⟩,
        some "config hash mismatch") ∧
    (atGate (sampleEnv sampleListen "0000" [⟨"a.example.com", 443, 200, "OK"⟩] 500)
      (sampleReceiver true) sampleListen
      ⟨"2026-01-01T00:00:00Z", "0000", [⟨"a.example.com", 443, 200, "OK"⟩]⟩).ServerStatuses
      = [] ∧
    (atGate (sampleEnv sampleListen "0000" [⟨"a.example.com", 443, 200, "OK"⟩] 500)
      (sampleReceiver true) sampleListen
      ⟨"2026-01-01T00:00:00Z", "0000", [⟨"a.example.com", 443, 200, "OK"⟩]⟩).Diffs = [] :=
  ⟨by decide,
    (Diff_hash_mismatch (sampleEnv sampleListen "0000" [⟨"a.example.com", 443, 200, "OK"⟩] 500)
      (sampleReceiver true) sampleListen "baseline"
      ⟨"2026-01-01T00:00:00Z", "0000", [⟨"a.example.com", 443, 200, "OK"⟩]⟩
      rfl rfl rfl rfl rfl (by decide)).1, rfl, rfl⟩

/-- C13: in `Diff`, when the configuration text and the baseline are loaded, the
fingerprint gate passes or is disabled and a worker runs, `Diff` returns with
every result of the probe run in `ServerStatuses` and the whole comparison in
`Diffs`; the error is "found diffs" exactly when `Diffs` is not empty and `nil`
exactly when `Diffs` is empty; started with an empty `Diffs`, that is exactly
when the comparison produced a record. -/
theorem Diff_found_diffs_iff (env : Env) (n : NginxEct) (cfg fd : String) (state : State)
    (hcfg : env.ReadFile n.ConfigFilePath = .ok cfg) (hscan : (bufio.Scan cfg).2 = none)
    (hstate : env.ReadFile n.StateFilePath = .ok fd) (hjson : env.Unmarshal fd = .ok state)
    (hgate : n.VerifyHash = false ∨ env.Sum256Hex cfg = state.ConfigHash)
    (hc : 1 ≤ n.Concurrency) :
    ∃ (n5 : NginxEct) (err : Option String), Diff env n = some (n5, err) ∧
      (err = some "found diffs" ↔ n5.Diffs ≠ []) ∧
      (err = none ↔ n5.Diffs = []) ∧
      n5.ServerStatuses = n.ServerStatuses ++
        (parseAndFilter { n with ConfigStr := cfg }).ServerBlocks.flatMap
          (statusWorker env n.Timeout) ∧
      n5.LoadedServerStatuses = state.ServerStatuses ∧
      n5.Diffs = n.Diffs ++ diffSpec n5.ServerStatuses n5.LoadedServerStatuses ∧
      (n.Diffs = [] →
        (err = some "found diffs" ↔
          diffSpec n5.ServerStatuses n5.LoadedServerStatuses ≠ [])) := by
  have hpass : ¬ ((atGate env n cfg state).VerifyHash = true ∧
      (atGate env n cfg state).ConfigHash ≠ (atGate env n cfg state).LoadedConfigHash) := by
    rintro ⟨hv, hne⟩
    rcases hgate with hg | hg
    · rw [show (atGate env n cfg state).VerifyHash = n.VerifyHash from rfl, hg] at hv
      exact Bool.false_ne_true hv
    · exact hne hg
  have hd := Diff_loaded env n cfg fd state hcfg hscan hstate hjson
  rw [diffFrom_pass env _ hpass hc, DiffState_append] at hd
  refine ⟨_, _, hd, ?_, ?_, rfl, rfl, rfl, ?_⟩
  · unfold diffCheck
    split_ifs with hlen
    · exact ⟨fun _ => List.ne_nil_of_length_pos hlen, fun _ => rfl⟩
    · constructor
      · intro he
        exact absurd he (by simp)
      · intro hne
        exact absurd (List.length_pos.mpr hne) hlen
  · unfold diffCheck
    split_ifs with hlen
    · constructor
      · intro he
        exact absurd he (by simp)
      · intro hnil
        rw [hnil] at hlen
        exact absurd hlen (by simp)
    · refine ⟨fun _ => ?_, fun _ => rfl⟩
      by_contra hne
      exact hlen (List.length_pos.mpr hne)
  · intro hnil
    unfold diffCheck
    simp only [atGate, hnil, List.nil_append]
    split_ifs with hlen
    · exact ⟨fun _ => List.ne_nil_of_length_pos hlen, fun _ => rfl⟩
    · constructor
      · intro he
        exact absurd he (by simp)
      · intro hne
        exact absurd (List.length_pos.mpr hne) hlen

theorem Diff_found_diffs_iff_witness :
    (Diff (sampleEnv sampleListen "5d41" [⟨"a.example.com", 443, 200, "OK"⟩] 500)
        (sampleReceiver true)).map outcomeOf =
      some (some "found diffs",
        [⟨"a.example.com", 443, 500, "OK"⟩, ⟨"b.example.com", 80, 500, "OK"⟩,
          ⟨"ignored.example.com", 80, 500, "OK"⟩],
        [⟨"a.example.com", 443, 200, 500, "OK"⟩]) ∧
    ∃ (n5 : NginxEct) (err : Option String),
      Diff (sampleEnv sampleListen "5d41" [⟨"a.example.com", 443, 200, "OK"⟩] 500)
        (sampleReceiver true) = some (n5, err) ∧
      (err = some "found diffs" ↔ n5.Diffs ≠ []) ∧ (err = none ↔ n5.Diffs = []) :=
  ⟨rfl,
    let ⟨n5, err, h1, h2, h3, _⟩ :=
      Diff_found_diffs_iff (sampleEnv sampleListen "5d41" [⟨"a.example.com", 443, 200, "OK"⟩] 500)
        (sampleReceiver true) sampleListen "baseline"
        ⟨"2026-01-01T00:00:00Z", "5d41", [⟨"a.example.com", 443, 200, "OK"⟩]⟩
        rfl rfl rfl rfl (Or.inr rfl) (by decide)
    ⟨n5, err, h1, h2, h3⟩⟩

theorem Init_fst_eq (env : Env) (n : NginxEct) :
    (Init env n).1 =
      { n with ConfigStr := (Init env n).1.ConfigStr
               ServerBlocks := (Init env n).1.ServerBlocks } := by
  unfold Init LoadConfigFile
  cases env.ReadFile n.ConfigFilePath with
  | error err => rfl
  | ok cfg =>
    simp only
    rw [ParseConfig_eq]
    cases (bufio.Scan cfg).2 <;> rfl

theorem diffFrom_outcome (env : Env) (m : NginxEct) (hv : m.VerifyHash = false)
    (loadedHash : String) :
    (diffFrom env { m with LoadedConfigHash := loadedHash }).map outcomeOf =
      (diffFrom env m).map outcomeOf := by
  unfold diffFrom
  have hg1 : ¬ (({ m with LoadedConfigHash := loadedHash } : NginxEct).VerifyHash = true ∧
      ({ m with LoadedConfigHash := loadedHash } : NginxEct).ConfigHash ≠
        ({ m with LoadedConfigHash := loadedHash } : NginxEct).LoadedConfigHash) := by
    rintro ⟨h, _⟩
    rw [show ({ m with LoadedConfigHash := loadedHash } : NginxEct).VerifyHash = m.VerifyHash
      from rfl, hv] at h
    exact Bool.false_ne_true h
  have hg2 : ¬ (m.VerifyHash = true ∧ m.ConfigHash ≠ m.LoadedConfigHash) := by
    rintro ⟨h, _⟩
    rw [hv] at h
    exact Bool.false_ne_true h
  rw [if_neg hg1, if_neg hg2]
  unfold IndexNginx
  by_cases hcond : m.Concurrency ≥ 1 ∨ m.ServerBlocks = []
  · rw [if_pos hcond, if_pos (show ({ m with LoadedConfigHash := loadedHash } :
      NginxEct).Concurrency ≥ 1 ∨
        ({ m with LoadedConfigHash := loadedHash } : NginxEct).ServerBlocks = [] from hcond)]
    rfl
  · rw [if_neg hcond, if_neg (show ¬ (({ m with LoadedConfigHash := loadedHash } :
      NginxEct).Concurrency ≥ 1 ∨
        ({ m with LoadedConfigHash := loadedHash } : NginxEct).ServerBlocks = []) from hcond)]

theorem diffFrom_error (env : Env) (m : NginxEct) (hv : m.VerifyHash = false)
    (r : NginxEct × Option String) (hr : diffFrom env m = some r) :
    r.2 = none ∨ r.2 = some "found diffs" := by
  unfold diffFrom at hr
  have hg : ¬ (m.VerifyHash = true ∧ m.ConfigHash ≠ m.LoadedConfigHash) := by
    rintro ⟨h, _⟩
    rw [hv] at h
    exact Bool.false_ne_true h
  rw [if_neg hg] at hr
  unfold IndexNginx at hr
  split_ifs at hr
  · simp only [DiffState, Option.some.injEq] at hr
    rw [← hr]
    unfold diffCheck
    simp only
    split_ifs
    · exact Or.inr rfl
    · exact Or.inl rfl

theorem LoadStateFile_verifyHash (env : Env) (n : NginxEct) :
    (LoadStateFile env n).1.VerifyHash = n.VerifyHash := by
  unfold LoadStateFile
  cases env.ReadFile n.StateFilePath with
  | error err => rfl
  | ok fd =>
    simp only
    cases env.Unmarshal fd <;> rfl

/-- C18: in `Diff` with `VerifyHash` unset, the returned error, the results and
the regressions are the same whatever fingerprint the decoded baseline carries;
and the error `Diff` returns is `nil`, "found diffs", or the error of `Init` or
of `LoadStateFile`: the gate's "config hash mismatch" is never raised. -/
theorem Diff_ignores_loaded_hash (env : Env) (n : NginxEct) (hv : n.VerifyHash = false)
    (h1 h2 : String) :
    (Diff (withLoadedHash env h1) n).map outcomeOf =
      (Diff (withLoadedHash env h2) n).map outcomeOf ∧
    ∀ r : NginxEct × Option String, Diff (withLoadedHash env h1) n = some r →
      r.2 = none ∨ r.2 = some "found diffs" ∨
        (r.2 = (Init env n).2 ∧ r.2 ≠ none) ∨
        (r.2 = (LoadStateFile (withLoadedHash env h1) (Init env n).1).2 ∧ r.2 ≠ none) := by
  have hinit : ∀ h, Init (withLoadedHash env h) n = Init env n := fun _ => rfl
  have hv1 : (Init env n).1.VerifyHash = false := by
    rw [Init_fst_eq]
    exact hv
  have key : ∀ h, (Diff (withLoadedHash env h) n).map outcomeOf =
      match Init env n with
      | (n1, some err) => some (outcomeOf (n1, some err))
      | (n1, none) =>
        match env.ReadFile n1.StateFilePath with
        | .error err => some (outcomeOf (n1, some err))
        | .ok fd =>
          match env.Unmarshal fd with
          | .error err => some (outcomeOf (n1, some err))
          | .ok state =>
            (diffFrom env { n1 with LoadedServerStatuses := state.ServerStatuses
                                    ConfigHash := env.Sum256Hex n1.ConfigStr }).map
              outcomeOf := by
    intro h
    rw [Diff_eq, hinit]
    rcases hI : Init env n with ⟨n1, _ | e1⟩
    · have hvn1 : n1.VerifyHash = false := by
        rw [hI] at hv1
        exact hv1
      simp only [LoadStateFile]
      show Option.map outcomeOf
        (match (match env.ReadFile n1.StateFilePath with
          | .error err => (n1, some err)
          | .ok fd =>
            match (withLoadedHash env h).Unmarshal fd with
            | .error err => (n1, some err)
            | .ok state =>
              ({ n1 with LoadedServerStatuses := state.ServerStatuses
                         LoadedConfigHash := state.ConfigHash }, none)) with
        | (n2, some err) => some (n2, some err)
        | (n2, none) => diffFrom (withLoadedHash env h) (HashConfig (withLoadedHash env h) n2).1)
        = _
      cases env.ReadFile n1.StateFilePath with
      | error err => rfl
      | ok fd =>
        simp only [withLoadedHash]
        cases env.Unmarshal fd with
        | error err => rfl
        | ok state =>
          simp only
          exact diffFrom_outcome env
            { n1 with LoadedServerStatuses := state.ServerStatuses
                      ConfigHash := env.Sum256Hex n1.ConfigStr } hvn1 h
    · rfl
  refine ⟨by rw [key h1, key h2], ?_⟩
  intro r hr
  rw [Diff_eq, hinit] at hr
  rcases hI : Init env n with ⟨n1, _ | e1⟩
  · rw [hI] at hr hv1
    simp only at hr hv1
    rcases hL : LoadStateFile (withLoadedHash env h1) n1 with ⟨n2, _ | e2⟩
    · rw [hL] at hr
      simp only at hr
      have hvn2 : (HashConfig (withLoadedHash env h1) n2).1.VerifyHash = false := by
        have : n2.VerifyHash = n1.VerifyHash := by
          have h2' := LoadStateFile_verifyHash (withLoadedHash env h1) n1
          rw [hL] at h2'
          exact h2'
        show n2.VerifyHash = false
        rw [this]
        exact hv1
      rcases diffFrom_error _ _ hvn2 r hr with h | h
      · exact Or.inl h
      · exact Or.inr (Or.inl h)
    · rw [hL] at hr
      simp only [Option.some.injEq] at hr
      rw [← hr]
      exact Or.inr (Or.inr (Or.inr ⟨rfl, by simp⟩))
  · rw [hI] at hr
    simp only [Option.some.injEq] at hr
    rw [← hr]
    exact Or.inr (Or.inr (Or.inl ⟨rfl, by simp⟩))

theorem Diff_ignores_loaded_hash_witness :
    (sampleReceiver false).VerifyHash = false ∧
    (Diff (withLoadedHash
        (sampleEnv sampleListen "5d41" [⟨"a.example.com", 443, 200, "OK"⟩] 500) "0000")
        (sampleReceiver false)).map outcomeOf =
      some (some "found diffs",
        [⟨"a.example.com", 443, 500, "OK"⟩, ⟨"b.example.com", 80, 500, "OK"⟩,
          ⟨"ignored.example.com", 80, 500, "OK"⟩],
        [⟨"a.example.com", 443, 200, 500, "OK"⟩]) ∧
    (Diff (withLoadedHash
        (sampleEnv sampleListen "5d41" [⟨"a.example.com", 443, 200, "OK"⟩] 500) "0000")
        (sampleReceiver false)).map outcomeOf =
      (Diff (withLoadedHash
        (sampleEnv sampleListen "5d41" [⟨"a.example.com", 443, 200, "OK"⟩] 500) "5d41")
        (sampleReceiver false)).map outcomeOf :=
  ⟨rfl, rfl,
    (Diff_ignores_loaded_hash
      (sampleEnv sampleListen "5d41" [⟨"a.example.com", 443, 200, "OK"⟩] 500)
      (sampleReceiver false) rfl "0000" "5d41").1⟩

/-! ## Theorems: how many regressions -/

theorem diffSpec_single (c : ServerStatus) (baseline : List ServerStatus) :
    diffSpec [c] baseline =
      (baseline.filter fun b =>
        b.ServerName = c.ServerName ∧ b.Port = c.Port ∧ b.StatusCode ≠ c.StatusCode).map
        fun b => mkDiff c b := by
  simp [diffSpec, mkDiff]

theorem diffSpec_cons (c : ServerStatus) (current baseline : List ServerStatus) :
    diffSpec (c :: current) baseline = diffSpec [c] baseline ++ diffSpec current baseline := by
  simp [diffSpec]

theorem diffSpec_single_length_le (c : ServerStatus) (baseline : List ServerStatus) :
    (diffSpec [c] baseline).length ≤ baseline.length := by
  rw [diffSpec_single, List.length_map]
  exact List.length_filter_le _ _

theorem diffSpec_length_le (current baseline : List ServerStatus) :
    (diffSpec current baseline).length ≤ current.length * baseline.length := by
  induction current with
  | nil => simp [diffSpec]
  | cons c cs ih =>
    rw [diffSpec_cons, List.length_append, List.length_cons, Nat.succ_mul]
    have := diffSpec_single_length_le c baseline
    omega

theorem length_le_one_of_same_key {α β : Type} (f : α → β) (v : β) (l : List α)
    (hnd : (l.map f).Nodup) (hsame : ∀ x ∈ l, f x = v) : l.length ≤ 1 := by
  match l, hnd, hsame with
  | [], _, _ => simp
  | [_], _, _ => simp
  | a :: b :: rest, hnd, hsame =>
    exfalso
    have ha := hsame a (List.mem_cons_self _ _)
    have hb := hsame b (List.mem_cons_of_mem _ (List.mem_cons_self _ _))
    rw [List.map_cons, List.map_cons, List.nodup_cons] at hnd
    exact hnd.1 (by rw [ha, ← hb]; exact List.mem_cons_self _ _)

/-- With pairwise distinct baseline pairs, one current result meets at most one
baseline entry of its pair, so it gives at most one record. -/
theorem diffSpec_single_le_one (c : ServerStatus) (baseline : List ServerStatus)
    (hnd : (baseline.map pairOf).Nodup) : (diffSpec [c] baseline).length ≤ 1 := by
  rw [diffSpec_single, List.length_map]
  apply length_le_one_of_same_key pairOf (pairOf c)
  · exact hnd.sublist ((List.filter_sublist _).map pairOf)
  · intro b hb
    have h := (List.mem_filter.mp hb).2
    simp only [decide_eq_true_eq] at h
    unfold pairOf
    rw [h.1, h.2.1]

theorem diffSpec_length_le_current (current baseline : List ServerStatus)
    (hnd : (baseline.map pairOf).Nodup) :
    (diffSpec current baseline).length ≤ current.length := by
  induction current with
  | nil => simp [diffSpec]
  | cons c cs ih =>
    rw [diffSpec_cons, List.length_append, List.length_cons]
    have := diffSpec_single_le_one c baseline hnd
    omega

theorem diffSpec_single_pairs (c : ServerStatus) (baseline : List ServerStatus)
    (hnd : (baseline.map pairOf).Nodup) :
    ((diffSpec [c] baseline).map pairOfDiff).Sublist [pairOf c] := by
  have hlen := diffSpec_single_le_one c baseline hnd
  have hpair : ∀ d ∈ diffSpec [c] baseline, pairOfDiff d = pairOf c := by
    intro d hd
    obtain ⟨c2, hc2, b, _, _, _, _, rfl⟩ := (mem_diffSpec _ _ _).mp hd
    rw [List.mem_singleton] at hc2
    rw [hc2]
    rfl
  match hl : diffSpec [c] baseline, hlen, hpair with
  | [], _, _ => simp
  | [d], _, hpair =>
    rw [List.map_cons, List.map_nil, hpair d (List.mem_singleton_self d)]
  | _ :: _ :: _, hlen, _ =>
    simp at hlen

theorem diffSpec_pairs_sublist (current baseline : List ServerStatus)
    (hnd : (baseline.map pairOf).Nodup) :
    ((diffSpec current baseline).map pairOfDiff).Sublist (current.map pairOf) := by
  induction current with
  | nil => simp [diffSpec]
  | cons c cs ih =>
    rw [diffSpec_cons, List.map_append, List.map_cons]
    exact (diffSpec_single_pairs c baseline hnd).append ih

/-- C21: started with an empty `Diffs`, `DiffState` leaves at most
|current| × |baseline| records, the records of each current result one after
the other; when the (ServerName, Port) pairs of the baseline are pairwise
distinct each current result gives at most one record, so there are at most
|current| records; and when the pairs of the current results are pairwise
distinct as well, no pair is reported twice. -/
theorem DiffState_count (n : NginxEct) (h : n.Diffs = []) :
    (DiffState n).1.Diffs.length ≤ n.ServerStatuses.length * n.LoadedServerStatuses.length ∧
    (DiffState n).1.Diffs =
      n.ServerStatuses.flatMap (fun c => diffSpec [c] n.LoadedServerStatuses) ∧
    ((n.LoadedServerStatuses.map pairOf).Nodup →
      (∀ c ∈ n.ServerStatuses, (diffSpec [c] n.LoadedServerStatuses).length ≤ 1) ∧
      (DiffState n).1.Diffs.length ≤ n.ServerStatuses.length ∧
      ((n.ServerStatuses.map pairOf).Nodup →
        ((DiffState n).1.Diffs.map pairOfDiff).Nodup)) := by
  have hd : (DiffState n).1.Diffs = diffSpec n.ServerStatuses n.LoadedServerStatuses := by
    rw [DiffState_append, h, List.nil_append]
  rw [hd]
  refine ⟨diffSpec_length_le _ _, ?_, ?_⟩
  · generalize n.ServerStatuses = current
    induction current with
    | nil => simp [diffSpec]
    | cons c cs ih => rw [diffSpec_cons, ih, List.flatMap_cons]
  · intro hnd
    refine ⟨fun c _ => diffSpec_single_le_one c _ hnd, diffSpec_length_le_current _ _ hnd, ?_⟩
    intro hcur
    exact hcur.sublist (diffSpec_pairs_sublist _ _ hnd)

theorem DiffState_count_witness :
    ({ NginxEct.zero with
        ServerStatuses := [⟨"a.example.com", 443, 500, "OK"⟩, ⟨"b.example.com", 80, 0, "TIMEOUT"⟩]
        LoadedServerStatuses := [⟨"b.example.com", 80, 200, "OK"⟩,
          ⟨"a.example.com", 443, 200, "OK"⟩,
          ⟨"b.example.com", 80, 404, "OK"⟩] } : NginxEct).Diffs = [] ∧
    (DiffState { NginxEct.zero with
        ServerStatuses := [⟨"a.example.com", 443, 500, "OK"⟩, ⟨"b.example.com", 80, 0, "TIMEOUT"⟩]
        LoadedServerStatuses := [⟨"b.example.com", 80, 200, "OK"⟩,
          ⟨"a.example.com", 443, 200, "OK"⟩,
          ⟨"b.example.com", 80, 404, "OK"⟩] }).1.Diffs =
      [⟨"a.example.com", 443, 200, 500, "OK"⟩, ⟨"b.example.com", 80, 200, 0, "TIMEOUT"⟩,
        ⟨"b.example.com", 80, 404, 0, "TIMEOUT"⟩] ∧
    (DiffState { NginxEct.zero with
        ServerStatuses := [⟨"a.example.com", 443, 500, "OK"⟩, ⟨"b.example.com", 80, 0, "TIMEOUT"⟩]
        LoadedServerStatuses := [⟨"b.example.com", 80, 200, "OK"⟩,
          ⟨"a.example.com", 443, 200, "OK"⟩,
          ⟨"b.example.com", 80, 404, "OK"⟩] }).1.Diffs.length ≤ 2 * 3 :=
  ⟨rfl, rfl, (DiffState_count _ rfl).1⟩

end nginx
